import Mathlib

/-!
Verification of the qihuo analytics engine (metrics calculator and behavior
detector) against its natural-language specification.

The Python sources `src/calculator/metrics.py` and
`src/detector/behavior_detector.py` are shallowly embedded below.  Numeric
data is modelled by `ℚ` (and by `ℝ` where the source takes real square
roots); pandas/NumPy float semantics for undefined divisions is modelled by
the `PVal` type, which carries NaN and the two infinities next to ordinary
values.  Python's banker's rounding `round(x, d)` is modelled by `roundTo`.
Dataframe filtering, grouping, `unique`, and stable sorting are modelled by
explicit list operations.
-/

/-! ## Pandas-style extended values

`PVal α` is a finite value, NaN, or one of the two infinities, with the
arithmetic and comparison behavior of IEEE floats as exposed by pandas and
NumPy (division by zero gives ±infinity or NaN, any operation on NaN gives
NaN, comparisons against NaN are false).
-/

inductive PVal (α : Type) where
  | nan : PVal α
  | inf : PVal α
  | ninf : PVal α
  | val : α → PVal α
deriving DecidableEq

namespace PVal

variable {α : Type} [LinearOrderedField α]

/-- Is this value NaN?  (`np.isnan`.) -/
def isNan : PVal α → Prop
  | nan => True
  | _ => False

instance : DecidablePred (isNan (α := α)) := fun x => by
  cases x <;> simp [isNan] <;> infer_instance

/-- Negation. -/
def pneg : PVal α → PVal α
  | nan => nan
  | inf => ninf
  | ninf => inf
  | val x => val (-x)

/-- IEEE-style addition. -/
def padd : PVal α → PVal α → PVal α
  | nan, _ => nan
  | _, nan => nan
  | inf, ninf => nan
  | ninf, inf => nan
  | inf, _ => inf
  | _, inf => inf
  | ninf, _ => ninf
  | _, ninf => ninf
  | val a, val b => val (a + b)

/-- IEEE-style subtraction. -/
def psub (a b : PVal α) : PVal α := padd a (pneg b)

/-- IEEE-style multiplication. -/
def pmul : PVal α → PVal α → PVal α
  | nan, _ => nan
  | _, nan => nan
  | inf, inf => inf
  | inf, ninf => ninf
  | ninf, inf => ninf
  | ninf, ninf => inf
  | inf, val b => if 0 < b then inf else if b < 0 then ninf else nan
  | val a, inf => if 0 < a then inf else if a < 0 then ninf else nan
  | ninf, val b => if 0 < b then ninf else if b < 0 then inf else nan
  | val a, ninf => if 0 < a then ninf else if a < 0 then inf else nan
  | val a, val b => val (a * b)

/-- IEEE-style division, as performed elementwise by pandas/NumPy: a finite
numerator divided by zero yields ±infinity, `0/0` yields NaN. -/
def pdiv : PVal α → PVal α → PVal α
  | nan, _ => nan
  | _, nan => nan
  | inf, inf => nan
  | inf, ninf => nan
  | ninf, inf => nan
  | ninf, ninf => nan
  | inf, val b => if 0 ≤ b then inf else ninf
  | ninf, val b => if 0 ≤ b then ninf else inf
  | val _, inf => val 0
  | val _, ninf => val 0
  | val a, val b =>
      if b = 0 then (if a = 0 then nan else if 0 < a then inf else ninf)
      else val (a / b)

/-- IEEE-style strict comparison: any comparison involving NaN is false. -/
def plt : PVal α → PVal α → Prop
  | nan, _ => False
  | _, nan => False
  | ninf, ninf => False
  | ninf, _ => True
  | _, ninf => False
  | inf, _ => False
  | val _, inf => True
  | val a, val b => a < b

instance : ∀ a b : PVal α, Decidable (plt a b) := fun a b => by
  cases a <;> cases b <;> simp [plt] <;> infer_instance

/-- IEEE-style disequality: `NaN != x` is true, including `x = NaN`. -/
def pne : PVal α → PVal α → Prop
  | nan, _ => True
  | _, nan => True
  | inf, inf => False
  | ninf, ninf => False
  | inf, _ => True
  | ninf, _ => True
  | val _, inf => True
  | val _, ninf => True
  | val a, val b => a ≠ b

instance : ∀ a b : PVal α, Decidable (pne a b) := fun a b => by
  cases a <;> cases b <;> simp [pne] <;> infer_instance

/-- Python's binary `max(a, b)`: returns `b` if `b > a`, else `a`.  In
particular `max(a, NaN) = a`. -/
def pymax (a b : PVal α) : PVal α := if plt a b then b else a

/-- Python's binary `min(a, b)`: returns `b` if `b < a`, else `a`. -/
def pymin (a b : PVal α) : PVal α := if plt b a then b else a

/-- Maximum of two non-NaN values under the order `ninf < val _ < inf`
(used by pandas `cummax`/`max`, which skip NaN). -/
def pmax2 (a b : PVal α) : PVal α := if plt a b then b else a

end PVal

/-! ## Python banker's rounding -/

/-- Round to the nearest integer, ties to even: the behavior of Python's
built-in `round` (on the idealized exact value). -/
def rnd {α : Type} [LinearOrderedField α] [FloorRing α] (x : α) : ℤ :=
  if x - ⌊x⌋ < 1 / 2 then ⌊x⌋
  else if 1 / 2 < x - ⌊x⌋ then ⌊x⌋ + 1
  else if ⌊x⌋ % 2 = 0 then ⌊x⌋ else ⌊x⌋ + 1

/-- Python's `round(x, d)` for `d` decimal places, ties to even. -/
def roundTo {α : Type} [LinearOrderedField α] [FloorRing α] (d : ℕ) (x : α) : α :=
  (rnd (x * 10 ^ d) : ℤ) / 10 ^ d

theorem rnd_le_of_le {α : Type} [LinearOrderedField α] [FloorRing α]
    {x y : α} (h : x ≤ y) : rnd x ≤ rnd y := by
  unfold rnd
  have hf : ⌊x⌋ ≤ ⌊y⌋ := Int.floor_le_floor h
  rcases lt_or_eq_of_le hf with hlt | heq
  · split_ifs <;> omega
  · rw [← heq]
    have hr : x - ⌊x⌋ ≤ y - ⌊x⌋ := by linarith
    rw [← heq] at *
    split_ifs <;> first | omega | linarith

theorem roundTo_le_of_le {α : Type} [LinearOrderedField α] [FloorRing α]
    (d : ℕ) {x y : α} (h : x ≤ y) : roundTo d x ≤ roundTo d y := by
  unfold roundTo
  have hp : (0:α) < 10 ^ d := by positivity
  have h2 := rnd_le_of_le (α := α) (mul_le_mul_of_nonneg_right h (le_of_lt hp))
  gcongr

theorem rnd_intCast {α : Type} [LinearOrderedField α] [FloorRing α] (n : ℤ) :
    rnd (n : α) = n := by
  unfold rnd
  rw [Int.floor_intCast]
  simp

theorem roundTo_of_int_mul {α : Type} [LinearOrderedField α] [FloorRing α]
    (d : ℕ) (n : ℤ) (x : α) (hx : x * 10 ^ d = (n : α)) : roundTo d x = x := by
  unfold roundTo
  rw [hx, rnd_intCast]
  field_simp [← hx]

/-! ## List utilities used by the embedding -/

/-- Helper for `uniqueKeep`: drop the elements already seen. -/
def uniqueKeepAux {α : Type} [DecidableEq α] (seen : List α) : List α → List α
  | [] => []
  | a :: l =>
      if a ∈ seen then uniqueKeepAux seen l
      else a :: uniqueKeepAux (a :: seen) l

/-- `pandas.unique`: distinct elements in order of first occurrence. -/
def uniqueKeep {α : Type} [DecidableEq α] (l : List α) : List α :=
  uniqueKeepAux [] l

theorem mem_uniqueKeepAux_iff {α : Type} [DecidableEq α] (l : List α) :
    ∀ (seen : List α) (x : α),
      x ∈ uniqueKeepAux seen l ↔ x ∈ l ∧ x ∉ seen := by
  induction l with
  | nil => intro seen x; simp [uniqueKeepAux]
  | cons a l ih =>
      intro seen x
      rw [uniqueKeepAux]
      split
      · rw [ih]
        simp only [List.mem_cons]
        constructor
        · rintro ⟨h1, h2⟩; exact ⟨Or.inr h1, h2⟩
        · rintro ⟨h1 | h1, h2⟩
          · exact absurd (h1 ▸ ‹a ∈ seen›) h2
          · exact ⟨h1, h2⟩
      · simp only [List.mem_cons, ih, List.mem_cons]
        by_cases hx : x = a
        · simp [hx]; assumption
        · simp [hx]

theorem mem_uniqueKeep_iff {α : Type} [DecidableEq α] (l : List α) (x : α) :
    x ∈ uniqueKeep l ↔ x ∈ l := by
  rw [uniqueKeep, mem_uniqueKeepAux_iff]
  simp

theorem nodup_uniqueKeepAux {α : Type} [DecidableEq α] (l : List α) :
    ∀ seen : List α, (uniqueKeepAux seen l).Nodup := by
  induction l with
  | nil => intro seen; simp [uniqueKeepAux]
  | cons a l ih =>
      intro seen
      rw [uniqueKeepAux]
      split
      · exact ih seen
      · refine List.nodup_cons.mpr ⟨?_, ih (a :: seen)⟩
        intro hmem
        have := (mem_uniqueKeepAux_iff l (a :: seen) a).mp hmem
        simp at this

theorem nodup_uniqueKeep {α : Type} [DecidableEq α] (l : List α) :
    (uniqueKeep l).Nodup := nodup_uniqueKeepAux l []

/-- Stable insertion of `x` into a list already arranged by the strict
priority test `before`: `x` goes in front of the first element it strictly
precedes, hence after any element it ties with. -/
def stableInsert {α : Type} (before : α → α → Bool) (x : α) : List α → List α
  | [] => [x]
  | y :: l => if before x y then x :: y :: l else y :: stableInsert before x l

/-- Stable sort by the strict priority test `before` (Python's stable
`list.sort` / `sorted`): elements are inserted left to right, so elements
that tie keep their original relative order. -/
def stableSortBy {α : Type} (before : α → α → Bool) (l : List α) : List α :=
  l.foldl (fun acc x => stableInsert before x acc) []

theorem mem_stableInsert {α : Type} (before : α → α → Bool) (x : α)
    (l : List α) (y : α) : y ∈ stableInsert before x l ↔ y = x ∨ y ∈ l := by
  induction l with
  | nil => simp [stableInsert]
  | cons a l ih =>
      rw [stableInsert]
      split
      · simp [or_comm, or_assoc, or_left_comm]
      · simp [ih]
        tauto

theorem mem_stableSortBy {α : Type} (before : α → α → Bool) (l : List α)
    (y : α) : y ∈ stableSortBy before l ↔ y ∈ l := by
  suffices h : ∀ acc, y ∈ l.foldl (fun acc x => stableInsert before x acc) acc ↔
      y ∈ acc ∨ y ∈ l by
    have := h []
    simpa [stableSortBy] using this
  induction l with
  | nil => intro acc; simp
  | cons a l ih =>
      intro acc
      simp only [List.foldl_cons, ih, mem_stableInsert, List.mem_cons]
      tauto

/-! ## Data model

Input records, as produced by the parsing layer (`excel_parser.py`) and
consumed by the engine.  Only the fields the engine reads are embedded;
numeric fields are modelled by `ℚ`.
-/

/-- A `DailyEquity` row (one per strategy and trading day). -/
structure EquityRow where
  strategy_code : String
  trade_date : String
  equity : ℚ
  deposit_withdraw : ℚ
  margin_used : ℚ
deriving DecidableEq

/-- A `Position` row (one per strategy, trading day and contract). -/
structure PositionRow where
  strategy_code : String
  trade_date : String
  contract : String
  long_qty : ℚ
  short_qty : ℚ
  prev_settlement : ℚ
  settlement : ℚ
  floating_pnl : ℚ
  position_value : ℚ
deriving DecidableEq

/-- A `Trade` row (one per fill). -/
structure TradeRow where
  strategy_code : String
  trade_date : String
  contract : String
  direction : String
  offset_flag : String
  price : ℚ
  quantity : ℚ
  amount : ℚ
deriving DecidableEq

/-- The `DailyMetrics` result of `MetricsCalculator.calculate_daily_metrics`. -/
structure DailyMetrics where
  strategy_code : String
  trade_date : String
  margin_ratio : ℚ
  long_exposure : ℚ
  short_exposure : ℚ
  net_exposure : ℚ
  gross_exposure : ℚ
  total_position_value : ℚ
  top1_concentration : ℚ
  top3_concentration : ℚ
  position_count : ℕ
  trade_count : ℕ
  turnover : ℚ
deriving DecidableEq

/-! ## MetricsCalculator.calculate_daily_metrics -/

/-- The contract "root": uppercased alphabetic characters of the contract
code (`''.join(filter(str.isalpha, contract.upper()))`). -/
def contractBase (s : String) : String :=
  String.mk (s.toUpper.toList.filter Char.isAlpha)

/-- The positions considered for a day: the loop body skips rows whose
`trade_date` differs from the equity row's. -/
def dayPositions (trade_date : String) (positions : List PositionRow) :
    List PositionRow :=
  positions.filter (fun p => decide (p.trade_date = trade_date))

/-- `long_exposure`: sum of `position_value` over the day's positions with
positive long quantity. -/
def longExposure (trade_date : String) (positions : List PositionRow) : ℚ :=
  ((dayPositions trade_date positions).map
    (fun p => if 0 < p.long_qty then p.position_value else 0)).sum

/-- `short_exposure`: sum of `position_value` over the day's positions with
positive short quantity. -/
def shortExposure (trade_date : String) (positions : List PositionRow) : ℚ :=
  ((dayPositions trade_date positions).map
    (fun p => if 0 < p.short_qty then p.position_value else 0)).sum

/-- `total_position_value = long_exposure + short_exposure`. -/
def totalPositionValue (trade_date : String) (positions : List PositionRow) : ℚ :=
  longExposure trade_date positions + shortExposure trade_date positions

/-- The `position_values` dict: `position_value` aggregated by contract
root, keys in order of first occurrence (Python dict insertion order). -/
def positionValues (trade_date : String) (positions : List PositionRow) :
    List (String × ℚ) :=
  let matching := dayPositions trade_date positions
  (uniqueKeep (matching.map (fun p => contractBase p.contract))).map
    (fun r => (r, ((matching.filter
      (fun p => decide (contractBase p.contract = r))).map
        (fun p => p.position_value)).sum))

/-- `sorted(position_values.values(), reverse=True)`. -/
def sortedValues (trade_date : String) (positions : List PositionRow) : List ℚ :=
  stableSortBy (fun a b => decide (b < a))
    ((positionValues trade_date positions).map (fun rv => rv.2))

/-- `top1_concentration` before rounding. -/
def top1Raw (trade_date : String) (positions : List PositionRow) : ℚ :=
  match sortedValues trade_date positions with
  | [] => 0
  | v :: _ =>
      if 0 < totalPositionValue trade_date positions then
        v / totalPositionValue trade_date positions
      else 0

/-- `top3_concentration` before rounding. -/
def top3Raw (trade_date : String) (positions : List PositionRow) : ℚ :=
  match sortedValues trade_date positions with
  | [] => 0
  | l =>
      if 0 < totalPositionValue trade_date positions then
        (l.take 3).sum / totalPositionValue trade_date positions
      else 0

/-- `MetricsCalculator.calculate_daily_metrics`: single-day risk metrics,
`none` when the equity row's equity is non-positive. -/
def calculate_daily_metrics (equity_row : EquityRow)
    (positions : List PositionRow) (trades : List TradeRow) :
    Option DailyMetrics :=
  let strategy_code := equity_row.strategy_code
  let trade_date := equity_row.trade_date
  let equity := equity_row.equity
  if equity ≤ 0 then none
  else
    let margin_ratio := if 0 < equity then equity_row.margin_used / equity else 0
    let long_exposure := longExposure trade_date positions
    let short_exposure := shortExposure trade_date positions
    let total_position_value := long_exposure + short_exposure
    let net_exposure :=
      if 0 < equity then (long_exposure - short_exposure) / equity else 0
    let gross_exposure := if 0 < equity then total_position_value / equity else 0
    let top1_concentration := top1Raw trade_date positions
    let top3_concentration := top3Raw trade_date positions
    let position_count := (positionValues trade_date positions).length
    let day_trades := trades.filter (fun t => decide (t.trade_date = trade_date))
    let trade_count := day_trades.length
    let turnover := (day_trades.map (fun t => t.amount)).sum
    some
      { strategy_code := strategy_code
        trade_date := trade_date
        margin_ratio := roundTo 4 margin_ratio
        long_exposure := roundTo 2 long_exposure
        short_exposure := roundTo 2 short_exposure
        net_exposure := roundTo 6 net_exposure
        gross_exposure := roundTo 6 gross_exposure
        total_position_value := roundTo 2 total_position_value
        top1_concentration := roundTo 4 top1_concentration
        top3_concentration := roundTo 4 top3_concentration
        position_count := position_count
        trade_count := trade_count
        turnover := roundTo 2 turnover }

/-- `top1_concentration` of an optional result, `0` when absent. -/
def top1Of (o : Option DailyMetrics) : ℚ := o.elim 0 (fun m => m.top1_concentration)

/-- `top3_concentration` of an optional result, `0` when absent. -/
def top3Of (o : Option DailyMetrics) : ℚ := o.elim 0 (fun m => m.top3_concentration)

/-! ## Facts about the concentration computation -/

theorem mem_dayPositions {d : String} {ps : List PositionRow} {p : PositionRow} :
    p ∈ dayPositions d ps ↔ p ∈ ps ∧ p.trade_date = d := by
  simp [dayPositions, List.mem_filter]

theorem positionValues_snd_nonneg {d : String} {ps : List PositionRow}
    (h : ∀ p ∈ ps, p.trade_date = d → 0 ≤ p.position_value) :
    ∀ rv ∈ positionValues d ps, 0 ≤ rv.2 := by
  intro rv hrv
  rw [positionValues, List.mem_map] at hrv
  obtain ⟨r, _, rfl⟩ := hrv
  refine List.sum_nonneg ?_
  intro y hy
  rw [List.mem_map] at hy
  obtain ⟨p, hp, rfl⟩ := hy
  have hp2 := List.mem_of_mem_filter hp
  have hp3 := mem_dayPositions.mp hp2
  exact h p hp3.1 hp3.2

theorem sortedValues_nonneg {d : String} {ps : List PositionRow}
    (h : ∀ p ∈ ps, p.trade_date = d → 0 ≤ p.position_value) :
    ∀ x ∈ sortedValues d ps, 0 ≤ x := by
  intro x hx
  rw [sortedValues, mem_stableSortBy, List.mem_map] at hx
  obtain ⟨rv, hrv, rfl⟩ := hx
  exact positionValues_snd_nonneg h rv hrv

theorem top1Raw_le_top3Raw {d : String} {ps : List PositionRow}
    (h : ∀ p ∈ ps, p.trade_date = d → 0 ≤ p.position_value) :
    top1Raw d ps ≤ top3Raw d ps := by
  have hnn := sortedValues_nonneg h
  unfold top1Raw top3Raw
  cases hsv : sortedValues d ps with
  | nil => exact le_refl 0
  | cons v rest =>
      by_cases ht : 0 < totalPositionValue d ps
      · simp only [if_pos ht]
        have hsum : (List.take 3 (v :: rest)).sum = v + (rest.take 2).sum := by
          simp [List.take_succ_cons]
        rw [hsum]
        have h2 : 0 ≤ (rest.take 2).sum := by
          refine List.sum_nonneg ?_
          intro y hy
          exact hnn y (hsv ▸ List.mem_cons_of_mem v (List.take_subset 2 rest hy))
        gcongr
        linarith
      · simp only [if_neg ht, le_refl]

theorem top1Raw_of_total_eq_zero {d : String} {ps : List PositionRow}
    (h0 : totalPositionValue d ps = 0) : top1Raw d ps = 0 := by
  unfold top1Raw
  cases hsv : sortedValues d ps with
  | nil => rfl
  | cons v rest => simp [h0]

theorem top3Raw_of_total_eq_zero {d : String} {ps : List PositionRow}
    (h0 : totalPositionValue d ps = 0) : top3Raw d ps = 0 := by
  unfold top3Raw
  cases hsv : sortedValues d ps with
  | nil => rfl
  | cons v rest => simp [h0]

theorem roundTo_zero {α : Type} [LinearOrderedField α] [FloorRing α] (d : ℕ) :
    roundTo d (0 : α) = 0 :=
  roundTo_of_int_mul d 0 0 (by norm_num)

theorem top1Of_eq {er : EquityRow} {ps : List PositionRow} {ts : List TradeRow}
    (he : ¬ er.equity ≤ 0) :
    top1Of (calculate_daily_metrics er ps ts) = roundTo 4 (top1Raw er.trade_date ps) := by
  simp [calculate_daily_metrics, he, top1Of]

theorem top3Of_eq {er : EquityRow} {ps : List PositionRow} {ts : List TradeRow}
    (he : ¬ er.equity ≤ 0) :
    top3Of (calculate_daily_metrics er ps ts) = roundTo 4 (top3Raw er.trade_date ps) := by
  simp [calculate_daily_metrics, he, top3Of]

/-! ## Claim C2 -/

/-- Example equity row: strategy `S`, day `D`, equity 100. -/
def exEquity : EquityRow :=
  { strategy_code := "S", trade_date := "D", equity := 100
    deposit_withdraw := 0, margin_used := 0 }

/-- A long-only position on contract `A` worth 60. -/
def exPosA : PositionRow :=
  { strategy_code := "S", trade_date := "D", contract := "A"
    long_qty := 1, short_qty := 0, prev_settlement := 0, settlement := 0
    floating_pnl := 0, position_value := 60 }

/-- A long-only position on contract `B` worth 40. -/
def exPosB : PositionRow :=
  { strategy_code := "S", trade_date := "D", contract := "B"
    long_qty := 1, short_qty := 0, prev_settlement := 0, settlement := 0
    floating_pnl := 0, position_value := 40 }

/-- C2, counterexample: with two long-only positions worth 60 and 40 the
code yields `top1_concentration = 0.6 < 1.0 = top3_concentration`, refuting
the claimed `top1_concentration ≥ top3_concentration`. -/
theorem C2_counterexample :
    top1Of (calculate_daily_metrics exEquity [exPosA, exPosB] []) <
      top3Of (calculate_daily_metrics exEquity [exPosA, exPosB] []) := by
  with_unfolding_all decide

/-- C2 (amended): in every `DailyMetrics` produced by
`calculate_daily_metrics` from positions whose same-day `position_value`s
are nonnegative, `top1_concentration ≤ top3_concentration` (the inequality
direction opposite to the claim), and both are 0 whenever the unrounded
`total_position_value` is 0. -/
theorem C2_top1_le_top3 (er : EquityRow) (ps : List PositionRow)
    (ts : List TradeRow)
    (h : ∀ p ∈ ps, p.trade_date = er.trade_date → 0 ≤ p.position_value) :
    top1Of (calculate_daily_metrics er ps ts) ≤
      top3Of (calculate_daily_metrics er ps ts) ∧
    (totalPositionValue er.trade_date ps = 0 →
      top1Of (calculate_daily_metrics er ps ts) = 0 ∧
      top3Of (calculate_daily_metrics er ps ts) = 0) := by
  by_cases he : er.equity ≤ 0
  · simp [calculate_daily_metrics, he, top1Of, top3Of]
  · rw [top1Of_eq he, top3Of_eq he]
    refine ⟨roundTo_le_of_le 4 (top1Raw_le_top3Raw h), fun h0 => ?_⟩
    rw [top1Raw_of_total_eq_zero h0, top3Raw_of_total_eq_zero h0, roundTo_zero]
    exact ⟨rfl, rfl⟩

/-- Witness for C2: the amended theorem applied to the 60/40 two-position
input. -/
theorem C2_top1_le_top3_witness :
    top1Of (calculate_daily_metrics exEquity [exPosA, exPosB] []) ≤
      top3Of (calculate_daily_metrics exEquity [exPosA, exPosB] []) ∧
    (totalPositionValue exEquity.trade_date [exPosA, exPosB] = 0 →
      top1Of (calculate_daily_metrics exEquity [exPosA, exPosB] []) = 0 ∧
      top3Of (calculate_daily_metrics exEquity [exPosA, exPosB] []) = 0) :=
  C2_top1_le_top3 exEquity [exPosA, exPosB] [] (by with_unfolding_all decide)

/-! ## Partitioning a list by a key

The detectors and the concentration aggregation iterate over the distinct
keys of a collection and filter the collection per key; these lemmas show
that this visits each qualifying element exactly once.
-/

theorem flatMap_congr_mem {β γ : Type} {K : List β} {F G : β → List γ}
    (h : ∀ c ∈ K, F c = G c) : K.flatMap F = K.flatMap G := by
  induction K with
  | nil => rfl
  | cons c K ih =>
      simp only [List.flatMap_cons]
      rw [h c (List.mem_cons_self c K), ih (fun x hx => h x (List.mem_cons_of_mem c hx))]

theorem flatMap_filter_cons_perm {β κ : Type} [DecidableEq κ] (k : β → κ)
    (P : β → Bool) (t : β) (ts0 : List β) (ht : P t = true) :
    ∀ K : List κ, K.Nodup → k t ∈ K →
      List.Perm
        (K.flatMap fun c => (t :: ts0).filter (fun x => decide (k x = c) && P x))
        (t :: K.flatMap fun c => ts0.filter (fun x => decide (k x = c) && P x)) := by
  intro K
  induction K with
  | nil => intro _ h; simp at h
  | cons c K ih =>
      intro hnd hmem
      have hnd' := List.nodup_cons.mp hnd
      by_cases hc : k t = c
      · have hfilter : (t :: ts0).filter (fun x => decide (k x = c) && P x) =
            t :: ts0.filter (fun x => decide (k x = c) && P x) := by
          simp [List.filter_cons, hc, ht]
        have hrest : (K.flatMap fun c' =>
            (t :: ts0).filter (fun x => decide (k x = c') && P x)) =
            K.flatMap fun c' => ts0.filter (fun x => decide (k x = c') && P x) := by
          refine flatMap_congr_mem ?_
          intro c' hc'
          have hne : k t ≠ c' := by
            intro he
            refine hnd'.1 ?_
            rw [← hc, he]
            exact hc'
          simp [List.filter_cons, hne]
        simp only [List.flatMap_cons, hfilter, hrest, List.cons_append]
        exact List.Perm.refl _
      · have hfilter : (t :: ts0).filter (fun x => decide (k x = c) && P x) =
            ts0.filter (fun x => decide (k x = c) && P x) := by
          simp [List.filter_cons, hc]
        have hmem' : k t ∈ K := by
          rcases List.mem_cons.mp hmem with h | h
          · exact absurd h hc
          · exact h
        have hperm := ih hnd'.2 hmem'
        simp only [List.flatMap_cons, hfilter]
        refine List.Perm.trans (hperm.append_left _) ?_
        exact List.perm_middle

theorem flatMap_filter_key_perm {β κ : Type} [DecidableEq κ] (k : β → κ)
    (P : β → Bool) (K : List κ) (hK : K.Nodup) :
    ∀ ts : List β, (∀ t ∈ ts, P t = true → k t ∈ K) →
      List.Perm
        (K.flatMap fun c => ts.filter (fun x => decide (k x = c) && P x))
        (ts.filter P) := by
  intro ts
  induction ts with
  | nil =>
      intro _
      have : (K.flatMap fun c => ([] : List β).filter
          (fun x => decide (k x = c) && P x)) = [] := by
        simp
      rw [this, List.filter_nil]
  | cons t ts0 ih =>
      intro hcov
      have hcov0 : ∀ x ∈ ts0, P x = true → k x ∈ K :=
        fun x hx => hcov x (List.mem_cons_of_mem t hx)
      cases hP : P t with
      | false =>
          have heq : (K.flatMap fun c => (t :: ts0).filter
              (fun x => decide (k x = c) && P x)) =
              K.flatMap fun c => ts0.filter (fun x => decide (k x = c) && P x) := by
            refine flatMap_congr_mem ?_
            intro c _
            simp [List.filter_cons, hP]
          rw [heq, List.filter_cons_of_neg (by simp [hP])]
          exact ih hcov0
      | true =>
          have hk := hcov t (List.mem_cons_self t ts0) hP
          rw [List.filter_cons_of_pos hP]
          refine List.Perm.trans (flatMap_filter_cons_perm k P t ts0 hP K hK hk) ?_
          exact (ih hcov0).cons t

theorem sum_map_flatMap {κ β : Type} (K : List κ) (F : κ → List β) (f : β → ℚ) :
    ((K.flatMap F).map f).sum = (K.map (fun c => ((F c).map f).sum)).sum := by
  induction K with
  | nil => rfl
  | cons c K ih => simp [List.flatMap_cons, ih]

/-! ## Claim C4 -/

theorem sum_map_add_q {β : Type} (l : List β) (f g : β → ℚ) :
    (l.map (fun x => f x + g x)).sum = (l.map f).sum + (l.map g).sum := by
  induction l with
  | nil => simp
  | cons a l ih => simp [ih]; ring

theorem positionValues_sum (d : String) (ps : List PositionRow) :
    ((positionValues d ps).map (fun rv => rv.2)).sum =
      ((dayPositions d ps).map (fun p => p.position_value)).sum := by
  have hcov : ∀ p ∈ dayPositions d ps, (fun _ : PositionRow => true) p = true →
      contractBase p.contract ∈
        uniqueKeep ((dayPositions d ps).map (fun p => contractBase p.contract)) := by
    intro p hp _
    rw [mem_uniqueKeep_iff]
    exact List.mem_map_of_mem _ hp
  have hperm := flatMap_filter_key_perm (fun p => contractBase p.contract)
    (fun _ => true)
    (uniqueKeep ((dayPositions d ps).map (fun p => contractBase p.contract)))
    (nodup_uniqueKeep _) (dayPositions d ps) hcov
  simp only [Bool.and_true, List.filter_true] at hperm
  have hsum := (hperm.map (fun p => p.position_value)).sum_eq
  rw [← hsum, sum_map_flatMap]
  simp only [positionValues, List.map_map]
  rfl

theorem totalPositionValue_eq_sum (d : String) (ps : List PositionRow)
    (h : ∀ p ∈ ps, p.trade_date = d →
      (0 < p.long_qty ∧ ¬ 0 < p.short_qty) ∨ (¬ 0 < p.long_qty ∧ 0 < p.short_qty)) :
    totalPositionValue d ps = ((dayPositions d ps).map (fun p => p.position_value)).sum := by
  unfold totalPositionValue longExposure shortExposure
  rw [← sum_map_add_q]
  refine congrArg List.sum (List.map_congr_left ?_)
  intro p hp
  have hp2 := mem_dayPositions.mp hp
  rcases h p hp2.1 hp2.2 with ⟨h1, h2⟩ | ⟨h1, h2⟩
  · simp [h1, h2]
  · simp [h1, h2]

theorem positionValues_le_sum {d : String} {ps : List PositionRow}
    (hval : ∀ p ∈ ps, p.trade_date = d → 0 ≤ p.position_value) :
    ∀ rv ∈ positionValues d ps,
      rv.2 ≤ ((dayPositions d ps).map (fun p => p.position_value)).sum := by
  intro rv hrv
  rw [positionValues, List.mem_map] at hrv
  obtain ⟨r, _, rfl⟩ := hrv
  have hsplit := List.filter_append_perm
    (fun p => decide (contractBase p.contract = r)) (dayPositions d ps)
  have hsum := (hsplit.map (fun p => p.position_value)).sum_eq
  rw [List.map_append, List.sum_append] at hsum
  have hnn : 0 ≤ (((dayPositions d ps).filter
      (fun p => !decide (contractBase p.contract = r))).map
        (fun p => p.position_value)).sum := by
    refine List.sum_nonneg ?_
    intro y hy
    rw [List.mem_map] at hy
    obtain ⟨p, hp, rfl⟩ := hy
    have hp2 := mem_dayPositions.mp (List.mem_of_mem_filter hp)
    exact hval p hp2.1 hp2.2
  linarith

/-- C4 (amended): when `total_position_value > 0` and every same-day
position has nonnegative `position_value` and is long-only or short-only
(exactly one of `long_qty`, `short_qty` positive), every per-contract-root
concentration fraction lies in `[0, 1]` and the fractions sum to 1.  When a
position is simultaneously long and short its value enters
`total_position_value` twice but its root's aggregate once, so the
fractions sum to less than 1 (see the counterexample). -/
theorem C4_fractions_sum (d : String) (ps : List PositionRow)
    (hpos : 0 < totalPositionValue d ps)
    (hval : ∀ p ∈ ps, p.trade_date = d → 0 ≤ p.position_value)
    (hside : ∀ p ∈ ps, p.trade_date = d →
      (0 < p.long_qty ∧ ¬ 0 < p.short_qty) ∨ (¬ 0 < p.long_qty ∧ 0 < p.short_qty)) :
    (∀ rv ∈ positionValues d ps,
      0 ≤ rv.2 / totalPositionValue d ps ∧ rv.2 / totalPositionValue d ps ≤ 1) ∧
    ((positionValues d ps).map
      (fun rv => rv.2 / totalPositionValue d ps)).sum = 1 := by
  have htot := totalPositionValue_eq_sum d ps hside
  constructor
  · intro rv hrv
    constructor
    · exact div_nonneg (positionValues_snd_nonneg hval rv hrv) (le_of_lt hpos)
    · rw [div_le_one hpos, htot]
      exact positionValues_le_sum hval rv hrv
  · have hdiv : ((positionValues d ps).map
        (fun rv => rv.2 / totalPositionValue d ps)).sum =
        ((positionValues d ps).map (fun rv => rv.2)).sum / totalPositionValue d ps := by
      induction positionValues d ps with
      | nil => simp
      | cons a l ih => simp [ih]; ring
    rw [hdiv, positionValues_sum, ← htot]
    exact div_self (ne_of_gt hpos)

/-- A hedged position: simultaneously long and short one lot of `A`. -/
def exPosHedged : PositionRow :=
  { strategy_code := "S", trade_date := "D", contract := "A"
    long_qty := 1, short_qty := 1, prev_settlement := 0, settlement := 0
    floating_pnl := 0, position_value := 100 }

/-- C4, counterexample: for a single hedged position the per-root
concentration fractions sum to 1/2, not 1, although
`total_position_value = 200 > 0`. -/
theorem C4_counterexample :
    0 < totalPositionValue "D" [exPosHedged] ∧
    ((positionValues "D" [exPosHedged]).map
      (fun rv => rv.2 / totalPositionValue "D" [exPosHedged])).sum ≠ 1 := by
  with_unfolding_all decide

/-- Witness for C4: the amended theorem applied to the 60/40 long-only
input. -/
theorem C4_fractions_sum_witness :
    (∀ rv ∈ positionValues "D" [exPosA, exPosB],
      0 ≤ rv.2 / totalPositionValue "D" [exPosA, exPosB] ∧
      rv.2 / totalPositionValue "D" [exPosA, exPosB] ≤ 1) ∧
    ((positionValues "D" [exPosA, exPosB]).map
      (fun rv => rv.2 / totalPositionValue "D" [exPosA, exPosB])).sum = 1 :=
  C4_fractions_sum "D" [exPosA, exPosB] (by with_unfolding_all decide)
    (by with_unfolding_all decide) (by with_unfolding_all decide)

/-! ## Claim C10 -/

theorem dayPositions_filter_self (d : String) (ps : List PositionRow) :
    dayPositions d (ps.filter (fun p => decide (p.trade_date = d))) =
      dayPositions d ps := by
  unfold dayPositions
  rw [List.filter_filter]
  simp

theorem dayPositions_map_strategy (d : String) (ps : List PositionRow)
    (f : PositionRow → String) :
    dayPositions d (ps.map (fun p => { p with strategy_code := f p })) =
      (dayPositions d ps).map (fun p => { p with strategy_code := f p }) := by
  unfold dayPositions
  rw [List.filter_map]
  rfl

theorem longExposure_map_strategy (d : String) (ps : List PositionRow)
    (f : PositionRow → String) :
    longExposure d (ps.map (fun p => { p with strategy_code := f p })) =
      longExposure d ps := by
  unfold longExposure
  rw [dayPositions_map_strategy, List.map_map]
  rfl

theorem shortExposure_map_strategy (d : String) (ps : List PositionRow)
    (f : PositionRow → String) :
    shortExposure d (ps.map (fun p => { p with strategy_code := f p })) =
      shortExposure d ps := by
  unfold shortExposure
  rw [dayPositions_map_strategy, List.map_map]
  rfl

theorem positionValues_map_strategy (d : String) (ps : List PositionRow)
    (f : PositionRow → String) :
    positionValues d (ps.map (fun p => { p with strategy_code := f p })) =
      positionValues d ps := by
  unfold positionValues
  rw [dayPositions_map_strategy]
  simp only [List.map_map, List.filter_map]
  rfl

theorem totalPositionValue_map_strategy (d : String) (ps : List PositionRow)
    (f : PositionRow → String) :
    totalPositionValue d (ps.map (fun p => { p with strategy_code := f p })) =
      totalPositionValue d ps := by
  unfold totalPositionValue
  rw [longExposure_map_strategy, shortExposure_map_strategy]

theorem sortedValues_map_strategy (d : String) (ps : List PositionRow)
    (f : PositionRow → String) :
    sortedValues d (ps.map (fun p => { p with strategy_code := f p })) =
      sortedValues d ps := by
  unfold sortedValues
  rw [positionValues_map_strategy]

theorem top1Raw_map_strategy (d : String) (ps : List PositionRow)
    (f : PositionRow → String) :
    top1Raw d (ps.map (fun p => { p with strategy_code := f p })) = top1Raw d ps := by
  unfold top1Raw
  rw [sortedValues_map_strategy, totalPositionValue_map_strategy]

theorem top3Raw_map_strategy (d : String) (ps : List PositionRow)
    (f : PositionRow → String) :
    top3Raw d (ps.map (fun p => { p with strategy_code := f p })) = top3Raw d ps := by
  unfold top3Raw
  rw [sortedValues_map_strategy, totalPositionValue_map_strategy]

theorem longExposure_filter_self (d : String) (ps : List PositionRow) :
    longExposure d (ps.filter (fun p => decide (p.trade_date = d))) =
      longExposure d ps := by
  unfold longExposure
  rw [dayPositions_filter_self]

theorem shortExposure_filter_self (d : String) (ps : List PositionRow) :
    shortExposure d (ps.filter (fun p => decide (p.trade_date = d))) =
      shortExposure d ps := by
  unfold shortExposure
  rw [dayPositions_filter_self]

theorem positionValues_filter_self (d : String) (ps : List PositionRow) :
    positionValues d (ps.filter (fun p => decide (p.trade_date = d))) =
      positionValues d ps := by
  unfold positionValues
  rw [dayPositions_filter_self]

theorem totalPositionValue_filter_self (d : String) (ps : List PositionRow) :
    totalPositionValue d (ps.filter (fun p => decide (p.trade_date = d))) =
      totalPositionValue d ps := by
  unfold totalPositionValue
  rw [longExposure_filter_self, shortExposure_filter_self]

theorem sortedValues_filter_self (d : String) (ps : List PositionRow) :
    sortedValues d (ps.filter (fun p => decide (p.trade_date = d))) =
      sortedValues d ps := by
  unfold sortedValues
  rw [positionValues_filter_self]

theorem top1Raw_filter_self (d : String) (ps : List PositionRow) :
    top1Raw d (ps.filter (fun p => decide (p.trade_date = d))) = top1Raw d ps := by
  unfold top1Raw
  rw [sortedValues_filter_self, totalPositionValue_filter_self]

theorem top3Raw_filter_self (d : String) (ps : List PositionRow) :
    top3Raw d (ps.filter (fun p => decide (p.trade_date = d))) = top3Raw d ps := by
  unfold top3Raw
  rw [sortedValues_filter_self, totalPositionValue_filter_self]

/-- C10: `calculate_daily_metrics` selects positions and trades by trading
day only, never by strategy code: the result is unchanged when every
position's and trade's `strategy_code` is rewritten arbitrarily, and
unchanged when the inputs are first restricted to the rows whose
`trade_date` equals the equity row's (so a same-day row of a different
strategy is included exactly like one of the same strategy). -/
theorem C10_day_filter_only (er : EquityRow) (ps : List PositionRow)
    (ts : List TradeRow) (f : PositionRow → String) (g : TradeRow → String) :
    calculate_daily_metrics er (ps.map (fun p => { p with strategy_code := f p }))
        (ts.map (fun t => { t with strategy_code := g t })) =
      calculate_daily_metrics er ps ts ∧
    calculate_daily_metrics er
        (ps.filter (fun p => decide (p.trade_date = er.trade_date)))
        (ts.filter (fun t => decide (t.trade_date = er.trade_date))) =
      calculate_daily_metrics er ps ts := by
  constructor
  · by_cases he : er.equity ≤ 0
    · simp [calculate_daily_metrics, he]
    · have hts : (ts.map (fun t => { t with strategy_code := g t })).filter
          (fun t => decide (t.trade_date = er.trade_date)) =
          (ts.filter (fun t => decide (t.trade_date = er.trade_date))).map
            (fun t => { t with strategy_code := g t }) := by
        rw [List.filter_map]
        rfl
      simp only [calculate_daily_metrics, if_neg he, hts,
        longExposure_map_strategy, shortExposure_map_strategy,
        top1Raw_map_strategy, top3Raw_map_strategy, positionValues_map_strategy,
        List.length_map, List.map_map]
      rfl
  · by_cases he : er.equity ≤ 0
    · simp [calculate_daily_metrics, he]
    · have hts : (ts.filter (fun t => decide (t.trade_date = er.trade_date))).filter
          (fun t => decide (t.trade_date = er.trade_date)) =
          ts.filter (fun t => decide (t.trade_date = er.trade_date)) := by
        rw [List.filter_filter]
        simp
      simp only [calculate_daily_metrics, if_neg he, hts,
        longExposure_filter_self, shortExposure_filter_self,
        top1Raw_filter_self, top3Raw_filter_self, positionValues_filter_self]

/-! ## BehaviorDetector: data model

`BehaviorAlert` as in `behavior_detector.py`; the human-readable
`description` string is pure formatting of the same numbers and is not
embedded.  The `details` dict payload is embedded per alert type.
-/

/-- The structured `details` payload of an alert. -/
inductive AlertDetails where
  | floatingLoss (floating_pnl loss_ratio add_quantity : ℚ)
      (add_direction : String) (add_price position_value : ℚ) : AlertDetails
  | counterTrend (direction : String)
      (price_change change_pct quantity price settlement prev_settlement : ℚ) :
      AlertDetails
deriving DecidableEq

/-- A behavior alert. -/
structure BehaviorAlert where
  strategy_code : String
  trade_date : String
  alert_type : String
  severity : String
  contract : String
  details : AlertDetails
deriving DecidableEq

/-! ## BehaviorDetector.detect_floating_loss_add -/

/-- The same-day, same-strategy positions in a trade's contract — the
positions whose floating P&L decides a floating-loss-add alert. -/
def floatingLossPositions (positions : List PositionRow) (t : TradeRow) :
    List PositionRow :=
  positions.filter (fun p =>
    decide (p.strategy_code = t.strategy_code ∧ p.trade_date = t.trade_date ∧
      p.contract = t.contract))

/-- Build the floating-loss-add alert for one opening trade from its
contract positions (loop body of `detect_floating_loss_add`). -/
def mkFLA (s d : String) (t : TradeRow) (contract_positions : List PositionRow) :
    BehaviorAlert :=
  let total_floating_pnl := (contract_positions.map (fun p => p.floating_pnl)).sum
  let position_value := (contract_positions.map (fun p => p.position_value)).sum
  let loss_ratio :=
    if 0 < position_value then |total_floating_pnl| / position_value else 0
  let severity :=
    if 5 / 100 < loss_ratio then "high"
    else if 2 / 100 < loss_ratio then "medium" else "low"
  { strategy_code := s
    trade_date := d
    alert_type := "floating_loss_add"
    severity := severity
    contract := t.contract
    details := AlertDetails.floatingLoss (roundTo 2 total_floating_pnl)
      (roundTo 4 loss_ratio) t.quantity t.direction t.price
      (roundTo 2 position_value) }

/-- `day_positions` of the `detect_floating_loss_add` loop: the strategy's
positions on one day. -/
def flaDayPositions (positions : List PositionRow) (s d : String) :
    List PositionRow :=
  (positions.filter (fun p => decide (p.strategy_code = s))).filter
    (fun p => decide (p.trade_date = d))

/-- `day_trades` of the `detect_floating_loss_add` loop: the strategy's
opening trades on one day. -/
def flaDayTrades (trades : List TradeRow) (s d : String) : List TradeRow :=
  (trades.filter (fun t => decide (t.strategy_code = s))).filter
    (fun t => decide (t.trade_date = d ∧ t.offset_flag = "开仓"))

/-- Inner loop body of `detect_floating_loss_add`: the alert (if any) for
one opening trade. -/
def flaTradeAlert (positions : List PositionRow) (s d : String) (t : TradeRow) :
    Option BehaviorAlert :=
  if (flaDayPositions positions s d).filter
      (fun p => decide (p.contract = t.contract)) = [] then none
  else if (((flaDayPositions positions s d).filter
      (fun p => decide (p.contract = t.contract))).map
        (fun p => p.floating_pnl)).sum < 0 then
    some (mkFLA s d t ((flaDayPositions positions s d).filter
      (fun p => decide (p.contract = t.contract))))
  else none

/-- One (strategy, day) cell of the `detect_floating_loss_add` loop. -/
def flaCell (positions : List PositionRow) (trades : List TradeRow)
    (s d : String) : List BehaviorAlert :=
  if flaDayPositions positions s d = [] ∨ flaDayTrades trades s d = [] then []
  else (flaDayTrades trades s d).filterMap (flaTradeAlert positions s d)

/-- `BehaviorDetector.detect_floating_loss_add`: for every strategy
occurring in the positions and every position date, scan the day's opening
trades and alert on those whose contract positions carry a net floating
loss.  `equity_data` is accepted and ignored, as in the source. -/
def detect_floating_loss_add (positions : List PositionRow)
    (trades : List TradeRow) (equity_data : List EquityRow) :
    List BehaviorAlert :=
  if positions = [] ∨ trades = [] then []
  else
    (uniqueKeep (positions.map (fun p => p.strategy_code))).flatMap (fun s =>
      (stableSortBy (fun a b => decide (a < b))
          (uniqueKeep (positions.map (fun p => p.trade_date)))).flatMap
        (fun d => flaCell positions trades s d))

/-- The specification-side qualification test: an opening trade whose
strategy's same-day positions in the same contract have a negative
floating-P&L sum. -/
def floatingLossQualifies (positions : List PositionRow) (t : TradeRow) : Bool :=
  decide (t.offset_flag = "开仓" ∧
    ((floatingLossPositions positions t).map (fun p => p.floating_pnl)).sum < 0)

/-! ## BehaviorDetector.detect_counter_trend_add -/

/-- The price-history entry for (strategy, contract, day): built from the
strategy's position rows in input order, later rows overwriting earlier
ones (Python dict assignment), hence the last matching row. -/
def ctaLookup (positions : List PositionRow) (s c d : String) :
    Option PositionRow :=
  ((positions.filter (fun p => decide (p.strategy_code = s))).filter
    (fun p => decide (p.contract = c ∧ p.trade_date = d))).getLast?

/-- `change`: settlement minus previous settlement, 0 when the previous
settlement is not positive. -/
def priceChange (p : PositionRow) : ℚ :=
  if 0 < p.prev_settlement then p.settlement - p.prev_settlement else 0

/-- `change_pct`: relative change, 0 when the previous settlement is not
positive. -/
def changePct (p : PositionRow) : ℚ :=
  if 0 < p.prev_settlement then
    (p.settlement - p.prev_settlement) / p.prev_settlement
  else 0

/-- Build the counter-trend-add alert for one opening trade from the
price-history row (loop body of `detect_counter_trend_add`). -/
def mkCTA (s : String) (t : TradeRow) (p : PositionRow) : BehaviorAlert :=
  let severity :=
    if 3 / 100 < |changePct p| then "high"
    else if 15 / 1000 < |changePct p| then "medium" else "low"
  { strategy_code := s
    trade_date := t.trade_date
    alert_type := "counter_trend_add"
    severity := severity
    contract := t.contract
    details := AlertDetails.counterTrend t.direction (roundTo 2 (priceChange p))
      (roundTo 4 (changePct p)) t.quantity t.price p.settlement
      p.prev_settlement }

/-- Inner loop body of `detect_counter_trend_add`: the alert (if any) for
one trade of strategy `s`. -/
def ctaTradeAlert (positions : List PositionRow) (s : String) (t : TradeRow) :
    Option BehaviorAlert :=
  if t.offset_flag ≠ "开仓" then none
  else
    match ctaLookup positions s t.contract t.trade_date with
    | none => none
    | some p =>
        if (t.direction = "买" ∧ priceChange p < 0) ∨
            (t.direction = "卖" ∧ 0 < priceChange p) then
          some (mkCTA s t p)
        else none

/-- `BehaviorDetector.detect_counter_trend_add`: per strategy, flag every
opening trade made against the contract's same-day price move; trades with
no price-history entry are skipped. -/
def detect_counter_trend_add (positions : List PositionRow)
    (trades : List TradeRow) : List BehaviorAlert :=
  if positions = [] ∨ trades = [] then []
  else
    (uniqueKeep (positions.map (fun p => p.strategy_code))).flatMap (fun s =>
      (trades.filter (fun t => decide (t.strategy_code = s))).filterMap
        (ctaTradeAlert positions s))

/-- The specification-side qualification test for counter-trend adds. -/
def counterTrendQualifies (positions : List PositionRow) (t : TradeRow) : Bool :=
  decide (t.offset_flag = "开仓") &&
    (match ctaLookup positions t.strategy_code t.contract t.trade_date with
      | none => false
      | some p =>
          decide ((t.direction = "买" ∧ priceChange p < 0) ∨
            (t.direction = "卖" ∧ 0 < priceChange p)))

instance : Inhabited PositionRow :=
  ⟨{ strategy_code := "", trade_date := "", contract := "", long_qty := 0
     short_qty := 0, prev_settlement := 0, settlement := 0, floating_pnl := 0
     position_value := 0 }⟩

/-- The alert a qualifying counter-trend trade produces (the price-history
row exists whenever the trade qualifies). -/
def ctaAlertOf (positions : List PositionRow) (t : TradeRow) : BehaviorAlert :=
  mkCTA t.strategy_code t
    ((ctaLookup positions t.strategy_code t.contract t.trade_date).getD default)

/-! ## BehaviorDetector.detect_all -/

/-- `severity_order`: the fixed severity rank, unknown severities rank 3. -/
def sevRank (s : String) : ℕ :=
  if s = "high" then 0 else if s = "medium" then 1 else if s = "low" then 2 else 3

/-- The sort key comparison of `detect_all`: Python's stable
`list.sort(key=lambda x: (x.trade_date, severity_order.get(x.severity, 3)),
reverse=True)` places `a` strictly before `b` exactly when `a`'s key tuple
is lexicographically greater. -/
def alertBefore (a b : BehaviorAlert) : Bool :=
  decide (b.trade_date < a.trade_date ∨
    (b.trade_date = a.trade_date ∧ sevRank b.severity < sevRank a.severity))

/-- Append an alert to its strategy's group, keeping key insertion order
(Python dict of lists). -/
def groupUpsert (acc : List (String × List BehaviorAlert)) (a : BehaviorAlert) :
    List (String × List BehaviorAlert) :=
  if acc.any (fun kv => decide (kv.1 = a.strategy_code)) then
    acc.map (fun kv =>
      if kv.1 = a.strategy_code then (kv.1, kv.2 ++ [a]) else kv)
  else acc ++ [(a.strategy_code, [a])]

/-- Group alerts by strategy in order of first appearance. -/
def groupByStrategy (l : List BehaviorAlert) : List (String × List BehaviorAlert) :=
  l.foldl groupUpsert []

/-- `BehaviorDetector.detect_all`: union of both detectors' alerts, grouped
by strategy, each group sorted by the reversed (date, severity-rank) key. -/
def detect_all (positions : List PositionRow) (trades : List TradeRow)
    (equity_data : List EquityRow) : List (String × List BehaviorAlert) :=
  (groupByStrategy
    (detect_floating_loss_add positions trades equity_data ++
      detect_counter_trend_add positions trades)).map
    (fun kv => (kv.1, stableSortBy alertBefore kv.2))

/-! ## Claims C9 and C1 -/

/-- C9: `detect_all` (and `detect_floating_loss_add`) produce identical
results for any two values of `equity_data`: the argument is accepted but
never consulted. -/
theorem C9_equity_data_ignored (positions : List PositionRow)
    (trades : List TradeRow) (e₁ e₂ : List EquityRow) :
    detect_all positions trades e₁ = detect_all positions trades e₂ ∧
    detect_floating_loss_add positions trades e₁ =
      detect_floating_loss_add positions trades e₂ :=
  ⟨rfl, rfl⟩

/-- Position giving contract `A` a −4% same-day move. -/
def exCtaPosHigh : PositionRow :=
  { strategy_code := "S", trade_date := "D", contract := "A"
    long_qty := 0, short_qty := 0, prev_settlement := 100, settlement := 96
    floating_pnl := 0, position_value := 0 }

/-- Position giving contract `B` a −1% same-day move. -/
def exCtaPosLow : PositionRow :=
  { strategy_code := "S", trade_date := "D", contract := "B"
    long_qty := 0, short_qty := 0, prev_settlement := 100, settlement := 99
    floating_pnl := 0, position_value := 0 }

/-- Opening buy on `A` (counter-trend, high severity). -/
def exTradeHigh : TradeRow :=
  { strategy_code := "S", trade_date := "D", contract := "A"
    direction := "买", offset_flag := "开仓", price := 96, quantity := 1
    amount := 96 }

/-- Opening buy on `B` (counter-trend, low severity). -/
def exTradeLow : TradeRow :=
  { strategy_code := "S", trade_date := "D", contract := "B"
    direction := "买", offset_flag := "开仓", price := 99, quantity := 1
    amount := 99 }

/-- C1: on a day with one high- and one low-severity alert, `detect_all`
returns the low-severity alert first — `reverse=True` applies to the whole
`(trade_date, severity_rank)` key, so within a day the severity rank is
sorted descending and `low` (rank 2) precedes `high` (rank 0), contrary to
the specified most-severe-first order. -/
theorem C1_severity_order_bug :
    (detect_all [exCtaPosHigh, exCtaPosLow] [exTradeHigh, exTradeLow] []).map
      (fun kv => (kv.1, kv.2.map (fun a => a.severity))) =
    [("S", ["low", "high"])] := by
  with_unfolding_all decide

/-! ## More list lemmas for the detector proofs -/

theorem filterMap_ite {β γ : Type} (l : List β) (c : β → Prop) [DecidablePred c]
    (h : β → γ) :
    l.filterMap (fun x => if c x then some (h x) else none) =
      (l.filter (fun x => decide (c x))).map h := by
  induction l with
  | nil => rfl
  | cons a l ih =>
      rw [List.filterMap_cons, List.filter_cons]
      by_cases hc : c a
      · simp [hc, ih]
      · simp [hc, ih]

theorem stableInsert_perm {α : Type} (before : α → α → Bool) (x : α)
    (l : List α) : List.Perm (stableInsert before x l) (x :: l) := by
  induction l with
  | nil => exact List.Perm.refl _
  | cons y l ih =>
      rw [stableInsert]
      split
      · exact List.Perm.refl _
      · exact List.Perm.trans (ih.cons y) (List.Perm.swap x y l)

theorem stableSortBy_perm {α : Type} (before : α → α → Bool) (l : List α) :
    List.Perm (stableSortBy before l) l := by
  suffices h : ∀ acc, List.Perm
      (l.foldl (fun acc x => stableInsert before x acc) acc) (acc ++ l) by
    simpa [stableSortBy] using h []
  induction l with
  | nil => intro acc; simp
  | cons a l ih =>
      intro acc
      rw [List.foldl_cons]
      refine List.Perm.trans (ih (stableInsert before a acc)) ?_
      refine List.Perm.trans (((stableInsert_perm before a acc).append_right l)) ?_
      exact (List.perm_middle).symm

theorem nodup_stableSortBy {α : Type} (before : α → α → Bool) {l : List α}
    (h : l.Nodup) : (stableSortBy before l).Nodup :=
  ((stableSortBy_perm before l).nodup_iff).mpr h

theorem flatMap_perm_congr {β γ : Type} {K : List β} {F G : β → List γ}
    (h : ∀ c ∈ K, List.Perm (F c) (G c)) :
    List.Perm (K.flatMap F) (K.flatMap G) := by
  induction K with
  | nil => exact List.Perm.refl _
  | cons c K ih =>
      simp only [List.flatMap_cons]
      exact (h c (List.mem_cons_self c K)).append
        (ih (fun x hx => h x (List.mem_cons_of_mem c hx)))

/-! ## Claim C7: floating-loss-add refinement -/

theorem floatingLossPositions_eq_filters (positions : List PositionRow)
    (t : TradeRow) :
    floatingLossPositions positions t =
      (flaDayPositions positions t.strategy_code t.trade_date).filter
        (fun p => decide (p.contract = t.contract)) := by
  unfold floatingLossPositions flaDayPositions
  rw [List.filter_filter, List.filter_filter]
  refine List.filter_congr ?_
  intro p _
  by_cases h1 : p.strategy_code = t.strategy_code <;>
    by_cases h2 : p.trade_date = t.trade_date <;>
    by_cases h3 : p.contract = t.contract <;>
    simp [h1, h2, h3]

theorem floatingLossQualifies_facts {positions : List PositionRow}
    {t : TradeRow} (h : floatingLossQualifies positions t = true) :
    t.offset_flag = "开仓" ∧
    ((floatingLossPositions positions t).map (fun p => p.floating_pnl)).sum < 0 := by
  unfold floatingLossQualifies at h
  rw [decide_eq_true_eq] at h
  exact h

theorem floatingLossQualifies_mem {positions : List PositionRow} {t : TradeRow}
    (h : floatingLossQualifies positions t = true) :
    ∃ p ∈ positions, p.strategy_code = t.strategy_code ∧
      p.trade_date = t.trade_date := by
  have hsum := (floatingLossQualifies_facts h).2
  cases hfl : floatingLossPositions positions t with
  | nil => rw [hfl] at hsum; simp at hsum
  | cons p rest =>
      have hp : p ∈ floatingLossPositions positions t :=
        hfl ▸ List.mem_cons_self p rest
      unfold floatingLossPositions at hp
      have hp2 := List.mem_filter.mp hp
      have hp3 := hp2.2
      rw [decide_eq_true_eq] at hp3
      exact ⟨p, hp2.1, hp3.1, hp3.2.1⟩

theorem flaTradeAlert_eq (positions : List PositionRow) {s d : String}
    {t : TradeRow} (hs : t.strategy_code = s) (hd : t.trade_date = d) :
    flaTradeAlert positions s d t =
      if ((floatingLossPositions positions t).map (fun p => p.floating_pnl)).sum < 0
      then some (mkFLA t.strategy_code t.trade_date t
        (floatingLossPositions positions t))
      else none := by
  subst hs
  subst hd
  unfold flaTradeAlert
  rw [← floatingLossPositions_eq_filters]
  by_cases hnil : floatingLossPositions positions t = []
  · rw [if_pos hnil, hnil]
    simp
  · rw [if_neg hnil]

theorem flaCell_eq (positions : List PositionRow) (trades : List TradeRow)
    (s d : String) :
    flaCell positions trades s d =
      ((trades.filter (fun t => decide (t.strategy_code = s))).filter
          (fun t => decide (t.trade_date = d) &&
            floatingLossQualifies positions t)).map
        (fun t => mkFLA t.strategy_code t.trade_date t
          (floatingLossPositions positions t)) := by
  have hQ : ∀ t ∈ trades.filter (fun t => decide (t.strategy_code = s)),
      (decide (t.trade_date = d) && floatingLossQualifies positions t) = true →
      t.strategy_code = s ∧ t.trade_date = d ∧ t.offset_flag = "开仓" ∧
        ((floatingLossPositions positions t).map (fun p => p.floating_pnl)).sum < 0 := by
    intro t ht hq
    have hs := (List.mem_filter.mp ht).2
    rw [decide_eq_true_eq] at hs
    rw [Bool.and_eq_true, decide_eq_true_eq] at hq
    obtain ⟨hd, hq2⟩ := hq
    have hfacts := floatingLossQualifies_facts hq2
    exact ⟨hs, hd, hfacts.1, hfacts.2⟩
  unfold flaCell
  by_cases hdp : flaDayPositions positions s d = []
  · rw [if_pos (Or.inl hdp)]
    symm
    rw [List.map_eq_nil_iff, List.filter_eq_nil_iff]
    intro t ht hq
    obtain ⟨hs, hd, _, hsum⟩ := hQ t ht hq
    have hfl : floatingLossPositions positions t = [] := by
      rw [floatingLossPositions_eq_filters, hs, hd, hdp]
      rfl
    rw [hfl] at hsum
    simp at hsum
  · by_cases hdt : flaDayTrades trades s d = []
    · rw [if_pos (Or.inr hdt)]
      symm
      rw [List.map_eq_nil_iff, List.filter_eq_nil_iff]
      intro t ht hq
      obtain ⟨hs, hd, hoff, _⟩ := hQ t ht hq
      have hmem : t ∈ flaDayTrades trades s d := by
        unfold flaDayTrades
        rw [List.mem_filter]
        refine ⟨ht, ?_⟩
        rw [decide_eq_true_eq]
        exact ⟨hd, hoff⟩
      rw [hdt] at hmem
      exact absurd hmem (List.not_mem_nil t)
    · rw [if_neg (by push_neg; exact ⟨hdp, hdt⟩)]
      have hstep1 : (flaDayTrades trades s d).filterMap (flaTradeAlert positions s d) =
          (flaDayTrades trades s d).filterMap (fun t =>
            if ((floatingLossPositions positions t).map
                (fun p => p.floating_pnl)).sum < 0 then
              some (mkFLA t.strategy_code t.trade_date t
                (floatingLossPositions positions t))
            else none) := by
        refine List.filterMap_congr ?_
        intro t ht
        unfold flaDayTrades at ht
        have h1 := List.mem_filter.mp ht
        have h2 := List.mem_filter.mp h1.1
        have hs := h2.2
        rw [decide_eq_true_eq] at hs
        have hd := h1.2
        rw [decide_eq_true_eq] at hd
        exact flaTradeAlert_eq positions hs hd.1
      rw [hstep1, filterMap_ite]
      congr 1
      unfold flaDayTrades
      rw [List.filter_filter]
      refine List.filter_congr ?_
      intro t ht
      have hs := (List.mem_filter.mp ht).2
      rw [decide_eq_true_eq] at hs
      unfold floatingLossQualifies
      by_cases h1 : t.trade_date = d <;> by_cases h2 : t.offset_flag = "开仓" <;>
        by_cases h3 : ((floatingLossPositions positions t).map
          (fun p => p.floating_pnl)).sum < 0 <;>
        simp [h1, h2, h3]

/-- Position with a 600 yuan floating loss on a 10000 yuan holding. -/
def exLossPos : PositionRow :=
  { strategy_code := "S", trade_date := "D", contract := "A"
    long_qty := 3, short_qty := 0, prev_settlement := 0, settlement := 0
    floating_pnl := -600, position_value := 10000 }

/-- Same-day opening trade of quantity 3 on the losing contract. -/
def exAddTrade : TradeRow :=
  { strategy_code := "S", trade_date := "D", contract := "A"
    direction := "买", offset_flag := "开仓", price := 100, quantity := 3
    amount := 300 }

set_option maxRecDepth 4000 in
/-- C7: `detect_floating_loss_add` emits exactly one alert per opening
trade whose same-strategy same-day positions in the trade's contract sum
to a negative floating P&L — the alert list is a permutation (the loop
groups trades by strategy and day) of that filter of the trades, with
`loss_ratio` and severity computed by `mkFLA` as specified; and on the
concrete 600/10000 scenario it emits exactly one alert with
`loss_ratio = 0.06` and severity `high`. -/
theorem C7_floating_loss_add (positions : List PositionRow)
    (trades : List TradeRow) (e : List EquityRow) :
    List.Perm (detect_floating_loss_add positions trades e)
      ((trades.filter (floatingLossQualifies positions)).map
        (fun t => mkFLA t.strategy_code t.trade_date t
          (floatingLossPositions positions t))) ∧
    detect_floating_loss_add [exLossPos] [exAddTrade] [] =
      [{ strategy_code := "S", trade_date := "D"
         alert_type := "floating_loss_add", severity := "high", contract := "A"
         details := AlertDetails.floatingLoss (-600) (6 / 100) 3 "买" 100 10000 }] := by
  refine ⟨?_, ?_⟩
  case refine_2 =>
    simp only [detect_floating_loss_add, flaCell, flaDayPositions, flaDayTrades,
      flaTradeAlert, mkFLA, floatingLossPositions, uniqueKeep, uniqueKeepAux,
      stableSortBy, stableInsert, exLossPos, exAddTrade]
    norm_num
    simp only [stableInsert, List.flatMap_cons, List.flatMap_nil, List.append_nil,
      List.filter_cons, List.filter_nil, List.filterMap_cons, List.filterMap_nil]
    have h1 : roundTo 2 (-600 : ℚ) = -600 := roundTo_of_int_mul 2 (-60000) _ (by norm_num)
    have h2 : roundTo 4 ((3:ℚ)/50) = 3/50 := roundTo_of_int_mul 4 600 _ (by norm_num)
    have h3 : roundTo 2 (10000:ℚ) = 10000 := roundTo_of_int_mul 2 1000000 _ (by norm_num)
    norm_num [List.filterMap_cons, List.filterMap_nil, flaTradeAlert, flaDayPositions,
      List.filter_cons, List.filter_nil, mkFLA, abs_of_nonpos, h1, h2, h3]
  by_cases h0 : positions = [] ∨ trades = []
  · unfold detect_floating_loss_add
    rw [if_pos h0]
    rcases h0 with h0 | h0
    · subst h0
      have hnil : trades.filter (floatingLossQualifies ([] : List PositionRow)) = [] := by
        rw [List.filter_eq_nil_iff]
        intro t ht hq
        obtain ⟨p, hp, _⟩ := floatingLossQualifies_mem hq
        exact absurd hp (List.not_mem_nil p)
      rw [hnil, List.map_nil]
    · subst h0
      rw [List.filter_nil, List.map_nil]
  · unfold detect_floating_loss_add
    rw [if_neg h0]
    simp only [flaCell_eq]
    simp only [← List.map_flatMap]
    refine List.Perm.map _ ?_
    refine List.Perm.trans (flatMap_perm_congr
      (G := fun s => (trades.filter (fun t => decide (t.strategy_code = s))).filter
        (floatingLossQualifies positions))
      (fun s _ => ?_)) ?_
    · refine flatMap_filter_key_perm (fun t => t.trade_date)
        (floatingLossQualifies positions) _
        (nodup_stableSortBy _ (nodup_uniqueKeep _)) _ ?_
      intro t _ hq
      rw [mem_stableSortBy, mem_uniqueKeep_iff, List.mem_map]
      obtain ⟨p, hp, _, hpd⟩ := floatingLossQualifies_mem hq
      exact ⟨p, hp, hpd⟩
    · have hcomb : ∀ s : String,
          (trades.filter (fun t => decide (t.strategy_code = s))).filter
            (floatingLossQualifies positions) =
          trades.filter (fun t => decide (t.strategy_code = s) &&
            floatingLossQualifies positions t) := by
        intro s
        rw [List.filter_filter]
        refine List.filter_congr ?_
        intro t _
        rw [Bool.and_comm]
      simp only [hcomb]
      refine flatMap_filter_key_perm (fun t => t.strategy_code)
        (floatingLossQualifies positions) _ (nodup_uniqueKeep _) _ ?_
      intro t _ hq
      rw [mem_uniqueKeep_iff, List.mem_map]
      obtain ⟨p, hp, hps, _⟩ := floatingLossQualifies_mem hq
      exact ⟨p, hp, hps⟩

/-! ## Claim C8: counter-trend-add refinement -/

theorem counterTrendQualifies_mem {positions : List PositionRow} {t : TradeRow}
    (h : counterTrendQualifies positions t = true) :
    ∃ p ∈ positions, p.strategy_code = t.strategy_code := by
  unfold counterTrendQualifies at h
  rw [Bool.and_eq_true] at h
  obtain ⟨-, h2⟩ := h
  cases hl : ctaLookup positions t.strategy_code t.contract t.trade_date with
  | none => rw [hl] at h2; simp at h2
  | some p =>
      have hp : p ∈ (positions.filter
          (fun p => decide (p.strategy_code = t.strategy_code))).filter
          (fun p => decide (p.contract = t.contract ∧ p.trade_date = t.trade_date)) := by
        unfold ctaLookup at hl
        exact List.mem_of_mem_getLast? hl
      have hp2 := List.mem_filter.mp (List.mem_of_mem_filter hp)
      have hp3 := hp2.2
      rw [decide_eq_true_eq] at hp3
      exact ⟨p, hp2.1, hp3⟩

theorem ctaTradeAlert_eq (positions : List PositionRow) {s : String}
    {t : TradeRow} (hs : t.strategy_code = s) :
    ctaTradeAlert positions s t =
      if counterTrendQualifies positions t = true then
        some (ctaAlertOf positions t)
      else none := by
  subst hs
  unfold ctaTradeAlert counterTrendQualifies ctaAlertOf
  by_cases hoff : t.offset_flag = "开仓"
  · rw [if_neg (by simp [hoff])]
    cases hl : ctaLookup positions t.strategy_code t.contract t.trade_date with
    | none => simp [hoff]
    | some p =>
        by_cases hflag : (t.direction = "买" ∧ priceChange p < 0) ∨
            (t.direction = "卖" ∧ 0 < priceChange p)
        · simp [hoff, hflag]
        · simp [hoff, hflag]
  · rw [if_pos (by simp [hoff])]
    simp [hoff]

/-- Position row giving contract `A` an exactly −3% same-day move. -/
def exCtaPosBoundary : PositionRow :=
  { strategy_code := "S", trade_date := "D", contract := "A"
    long_qty := 0, short_qty := 0, prev_settlement := 100, settlement := 97
    floating_pnl := 0, position_value := 0 }

/-- Opening buy on the day of the −3% move. -/
def exCtaTradeBoundary : TradeRow :=
  { strategy_code := "S", trade_date := "D", contract := "A"
    direction := "买", offset_flag := "开仓", price := 97, quantity := 1
    amount := 97 }

set_option maxRecDepth 2000 in
/-- C8: `detect_counter_trend_add` flags exactly the opening trades that
are buys against a negative same-day move or sells against a positive one
(the alert list is a permutation — the loop groups trades by strategy — of
that filter of the trades, with severity computed by `mkCTA`); trades with
no price-history entry never qualify; and at the exact 3% boundary
(`prev_settlement=100`, `settlement=97`) the single emitted alert has
`change_pct = -0.03` and severity `medium`, strictly below `high`. -/
theorem C8_counter_trend_add (positions : List PositionRow)
    (trades : List TradeRow) :
    List.Perm (detect_counter_trend_add positions trades)
      ((trades.filter (counterTrendQualifies positions)).map
        (ctaAlertOf positions)) ∧
    detect_counter_trend_add [exCtaPosBoundary] [exCtaTradeBoundary] =
      [{ strategy_code := "S", trade_date := "D"
         alert_type := "counter_trend_add", severity := "medium", contract := "A"
         details := AlertDetails.counterTrend "买" (-3) (-3 / 100) 1 97 97 100 }] := by
  refine ⟨?_, ?_⟩
  case refine_2 =>
    have h1 : roundTo 2 (-3 : ℚ) = -3 := roundTo_of_int_mul 2 (-300) _ (by norm_num)
    have h2 : roundTo 4 (-(3 / 100) : ℚ) = -(3 / 100) := roundTo_of_int_mul 4 (-300) _ (by norm_num)
    norm_num [detect_counter_trend_add, uniqueKeep, uniqueKeepAux, List.filter_cons,
      List.filter_nil, List.flatMap_cons, List.flatMap_nil, List.filterMap_cons,
      List.filterMap_nil, ctaTradeAlert, ctaLookup, mkCTA, priceChange, changePct,
      exCtaPosBoundary, exCtaTradeBoundary, abs_of_nonpos, h1, h2]
  by_cases h0 : positions = [] ∨ trades = []
  · unfold detect_counter_trend_add
    rw [if_pos h0]
    rcases h0 with h0 | h0
    · subst h0
      have hnil : trades.filter (counterTrendQualifies ([] : List PositionRow)) = [] := by
        rw [List.filter_eq_nil_iff]
        intro t ht hq
        obtain ⟨p, hp, _⟩ := counterTrendQualifies_mem hq
        exact absurd hp (List.not_mem_nil p)
      rw [hnil, List.map_nil]
    · subst h0
      rw [List.filter_nil, List.map_nil]
  · unfold detect_counter_trend_add
    rw [if_neg h0]
    have hcell : ∀ s : String,
        (trades.filter (fun t => decide (t.strategy_code = s))).filterMap
          (ctaTradeAlert positions s) =
        (trades.filter (fun t => decide (t.strategy_code = s) &&
          counterTrendQualifies positions t)).map (ctaAlertOf positions) := by
      intro s
      have h1 : (trades.filter (fun t => decide (t.strategy_code = s))).filterMap
          (ctaTradeAlert positions s) =
          (trades.filter (fun t => decide (t.strategy_code = s))).filterMap
            (fun t => if counterTrendQualifies positions t = true then
              some (ctaAlertOf positions t) else none) := by
        refine List.filterMap_congr ?_
        intro t ht
        have hs := (List.mem_filter.mp ht).2
        rw [decide_eq_true_eq] at hs
        exact ctaTradeAlert_eq positions hs
      rw [h1, filterMap_ite, List.filter_filter]
      congr 1
      refine List.filter_congr (fun t _ => ?_)
      cases hq : counterTrendQualifies positions t <;> simp [hq]
    simp only [hcell]
    simp only [← List.map_flatMap]
    refine List.Perm.map _ ?_
    refine flatMap_filter_key_perm (fun t => t.strategy_code)
      (counterTrendQualifies positions) _ (nodup_uniqueKeep _) _ ?_
    intro t _ hq
    rw [mem_uniqueKeep_iff, List.mem_map]
    obtain ⟨p, hp, hps⟩ := counterTrendQualifies_mem hq
    exact ⟨p, hp, hps⟩

/-! ## MetricsCalculator.calculate_daily_returns

The pandas frame operations are modelled column-wise: `sort_values` by
trading day (stable), `shift(1)` and the guarded division via a walk
carrying the previous row's equity, `cumprod`, `cummax` and the drawdown
columns as walks.  Values are `PVal ℚ`: the division produces ±infinity or
NaN exactly as NumPy does, and only NaN (`isna`) is replaced by 0.
-/

/-- `equity_df.sort_values('trade_date')` (stable). -/
def sortByDate (rows : List EquityRow) : List EquityRow :=
  stableSortBy (fun a b => decide (a.trade_date < b.trade_date)) rows

/-- `df.loc[df['daily_return'].isna(), 'daily_return'] = 0`: replace NaN
(and only NaN) by 0. -/
def fixNan (x : PVal ℚ) : PVal ℚ := if x.isNan then PVal.val 0 else x

/-- `(equity - prev_equity - deposit_withdraw) / prev_equity` with a
missing previous row giving NaN (`shift` introduces NaN). -/
def rawReturn (prev : Option ℚ) (r : EquityRow) : PVal ℚ :=
  match prev with
  | none => PVal.nan
  | some pe => PVal.pdiv (PVal.val (r.equity - pe - r.deposit_withdraw)) (PVal.val pe)

/-- The `daily_return` column, walking with the previous row's equity. -/
def dailyReturnsGo (prev : Option ℚ) : List EquityRow → List (PVal ℚ)
  | [] => []
  | r :: l => fixNan (rawReturn prev r) :: dailyReturnsGo (some r.equity) l

/-- The `daily_return` column of the sorted frame. -/
def dailyReturnCol (rows : List EquityRow) : List (PVal ℚ) :=
  dailyReturnsGo none rows

/-- The `cumulative_return` column: running product of `1 + daily_return`,
minus 1 at each row. -/
def cumReturnsGo (acc : PVal ℚ) : List (PVal ℚ) → List (PVal ℚ)
  | [] => []
  | x :: l =>
      PVal.psub (PVal.pmul acc (PVal.padd (PVal.val 1) x)) (PVal.val 1) ::
        cumReturnsGo (PVal.pmul acc (PVal.padd (PVal.val 1) x)) l

/-- The `cumulative_return` column of the sorted frame. -/
def cumulativeReturnCol (rows : List EquityRow) : List (PVal ℚ) :=
  cumReturnsGo (PVal.val 1) (dailyReturnCol rows)

/-- The `running_max` column: running maximum of equity. -/
def runningMaxGo (acc : Option ℚ) : List ℚ → List ℚ
  | [] => []
  | x :: l =>
      match acc with
      | none => x :: runningMaxGo (some x) l
      | some m => max m x :: runningMaxGo (some (max m x)) l

/-- The `running_max` column of the sorted frame. -/
def runningMaxCol (rows : List EquityRow) : List ℚ :=
  runningMaxGo none (rows.map (fun r => r.equity))

/-- The `drawdown` column: `(running_max - equity) / running_max`. -/
def drawdownCol (rows : List EquityRow) : List (PVal ℚ) :=
  ((runningMaxCol rows).zip (rows.map (fun r => r.equity))).map
    (fun rm_e => PVal.pdiv (PVal.val (rm_e.1 - rm_e.2)) (PVal.val rm_e.1))

/-- pandas `cummax` over a column that may contain NaN: NaN rows stay NaN
and do not update the running maximum. -/
def cummaxPGo (acc : Option (PVal ℚ)) : List (PVal ℚ) → List (PVal ℚ)
  | [] => []
  | x :: l =>
      if x.isNan then PVal.nan :: cummaxPGo acc l
      else
        match acc with
        | none => x :: cummaxPGo (some x) l
        | some m => PVal.pmax2 m x :: cummaxPGo (some (PVal.pmax2 m x)) l

/-- The `max_drawdown` column: running maximum of the drawdown column. -/
def maxDrawdownCol (rows : List EquityRow) : List (PVal ℚ) :=
  cummaxPGo none (drawdownCol rows)

/-! ## MetricsCalculator.calculate_performance -/

/-- The finite payload of a `PVal`, when there is one. -/
def PVal.toVal {α : Type} : PVal α → Option α
  | PVal.val x => some x
  | _ => none

/-- pandas `Series.std(ddof=1)` without the final square root: drop NaN,
give NaN when an infinity is present or fewer than 2 values remain, else
the sample variance. -/
def pstdVar (l : List (PVal ℚ)) : PVal ℚ :=
  let nn := l.filter (fun x => decide (¬ x.isNan))
  if nn.any (fun x => decide (x = PVal.inf ∨ x = PVal.ninf)) then PVal.nan
  else
    let xs := nn.filterMap PVal.toVal
    if xs.length < 2 then PVal.nan
    else
      PVal.val (((xs.map (fun x => (x - xs.sum / (xs.length : ℚ)) ^ 2)).sum) /
        ((xs.length : ℚ) - 1))

/-- The square root, lifted to `PVal` (`np.sqrt`); applied only to sample
variances (NaN or a nonnegative value) in this development. -/
noncomputable def psqrt : PVal ℚ → PVal ℝ
  | PVal.nan => PVal.nan
  | PVal.inf => PVal.inf
  | PVal.ninf => PVal.nan
  | PVal.val q => PVal.val (Real.sqrt (q : ℝ))

/-- pandas `Series.mean()`: drop NaN; empty gives NaN; a single-signed
infinity dominates; mixed infinities give NaN. -/
def pmean (l : List (PVal ℚ)) : PVal ℚ :=
  let nn := l.filter (fun x => decide (¬ x.isNan))
  if nn = [] then PVal.nan
  else if nn.any (fun x => decide (x = PVal.inf)) &&
      nn.any (fun x => decide (x = PVal.ninf)) then PVal.nan
  else if nn.any (fun x => decide (x = PVal.inf)) then PVal.inf
  else if nn.any (fun x => decide (x = PVal.ninf)) then PVal.ninf
  else PVal.val ((nn.filterMap PVal.toVal).sum / (nn.length : ℚ))

/-- pandas `Series.max()`: drop NaN, NaN for an empty column, else the
maximum. -/
def pmaxList (l : List (PVal ℚ)) : PVal ℚ :=
  match l.filter (fun x => decide (¬ x.isNan)) with
  | [] => PVal.nan
  | x :: xs => xs.foldl PVal.pmax2 x

/-- Embed `PVal ℚ` into `PVal ℝ`. -/
noncomputable def castP : PVal ℚ → PVal ℝ
  | PVal.nan => PVal.nan
  | PVal.inf => PVal.inf
  | PVal.ninf => PVal.ninf
  | PVal.val q => PVal.val (q : ℝ)

/-- `round(x, d)` lifted to `PVal` (`round` keeps NaN and infinities). -/
noncomputable def pround (d : ℕ) : PVal ℝ → PVal ℝ
  | PVal.nan => PVal.nan
  | PVal.inf => PVal.inf
  | PVal.ninf => PVal.ninf
  | PVal.val x => PVal.val (roundTo d x)

/-- `df['trade_date'].max()`. -/
def maxDate (rows : List EquityRow) : String :=
  rows.foldl (fun a r => if a ≤ r.trade_date then r.trade_date else a) ""

/-- The `PerformanceMetrics` result record. -/
structure PerformanceMetrics where
  strategy_code : String
  calc_date : String
  total_return : PVal ℝ
  annualized_return : PVal ℝ
  sharpe_ratio : PVal ℝ
  max_drawdown : PVal ℝ
  calmar_ratio : PVal ℝ
  win_rate : PVal ℝ
  volatility : PVal ℝ
  avg_margin_ratio : PVal ℝ
  performance_score : PVal ℝ
  risk_score : PVal ℝ
  total_score : PVal ℝ

/-- `MetricsCalculator._calculate_performance_score` (0-100). -/
noncomputable def perfScoreRaw (total_return sharpe max_drawdown win_rate : PVal ℝ) :
    PVal ℝ :=
  let return_score := PVal.pymin (PVal.val 40) (PVal.pymax (PVal.val 0)
    (PVal.pmul (PVal.padd total_return (PVal.val (5 / 100))) (PVal.val 200)))
  let sharpe_score := PVal.pymin (PVal.val 30) (PVal.pymax (PVal.val 0)
    (PVal.pmul sharpe (PVal.val 15)))
  let drawdown_score := PVal.pymax (PVal.val 0)
    (PVal.psub (PVal.val 20) (PVal.pmul max_drawdown (PVal.val 100)))
  let winrate_score := PVal.pmul win_rate (PVal.val 10)
  PVal.padd (PVal.padd (PVal.padd return_score sharpe_score) drawdown_score)
    winrate_score

/-- `MetricsCalculator._calculate_risk_score` (0-100, higher is safer). -/
noncomputable def riskScoreRaw (avg_margin_ratio volatility max_drawdown : PVal ℝ) :
    PVal ℝ :=
  let margin_score := PVal.pymax (PVal.val 0)
    (PVal.psub (PVal.val 40) (PVal.pmul avg_margin_ratio (PVal.val 80)))
  let vol_score := PVal.pymax (PVal.val 0)
    (PVal.psub (PVal.val 30) (PVal.pmul volatility (PVal.val 60)))
  let drawdown_score := PVal.pymax (PVal.val 0)
    (PVal.psub (PVal.val 30) (PVal.pmul max_drawdown (PVal.val 150)))
  PVal.padd (PVal.padd margin_score vol_score) drawdown_score

/-- `MetricsCalculator.calculate_performance`: `none` for fewer than two
equity rows, otherwise the populated metrics record with every field
rounded as in the source. -/
noncomputable def calculate_performance (risk_free_rate : ℚ)
    (equity_df : List EquityRow) (strategy_code : String) :
    Option PerformanceMetrics :=
  if equity_df.length < 2 then none
  else
    let df := sortByDate equity_df
    let calc_date := maxDate df
    let dr := dailyReturnCol df
    let total_return : PVal ℚ := (cumulativeReturnCol df).getLastD (PVal.val 0)
    let trading_days := df.length
    let annualized_return : PVal ℚ :=
      if 0 < trading_days then
        PVal.pmul total_return (PVal.val ((252 : ℚ) / (trading_days : ℚ)))
      else PVal.val 0
    let daily_std : PVal ℝ := psqrt (pstdVar dr)
    let volatility : PVal ℝ :=
      if daily_std.isNan then PVal.val 0
      else PVal.pmul daily_std (PVal.val (Real.sqrt 252))
    let excess_return : PVal ℚ := PVal.psub annualized_return (PVal.val risk_free_rate)
    let sharpe_ratio : PVal ℝ :=
      if PVal.plt (PVal.val 0) volatility then
        PVal.pdiv (castP excess_return) volatility
      else PVal.val 0
    let max_drawdown : PVal ℚ := pmaxList (maxDrawdownCol df)
    let calmar_ratio : PVal ℚ :=
      if PVal.plt (PVal.val 0) max_drawdown then
        PVal.pdiv annualized_return max_drawdown
      else PVal.val 0
    let win_days := dr.countP (fun x => decide (PVal.plt (PVal.val 0) x))
    let total_days := dr.countP (fun x => decide (PVal.pne x (PVal.val 0)))
    let win_rate : ℚ := if 0 < total_days then (win_days : ℚ) / (total_days : ℚ) else 0
    let amr0 : PVal ℚ := pmean (df.map (fun r =>
      PVal.pdiv (PVal.val r.margin_used) (PVal.val r.equity)))
    let avg_margin_ratio : PVal ℚ := if amr0.isNan then PVal.val 0 else amr0
    let performance_score := perfScoreRaw (castP total_return) sharpe_ratio
      (castP max_drawdown) (PVal.val (win_rate : ℝ))
    let risk_score := riskScoreRaw (castP avg_margin_ratio) volatility
      (castP max_drawdown)
    let total_score := PVal.padd (PVal.pmul performance_score (PVal.val (1 / 2)))
      (PVal.pmul risk_score (PVal.val (1 / 2)))
    some
      { strategy_code := strategy_code
        calc_date := calc_date
        total_return := pround 6 (castP total_return)
        annualized_return := pround 6 (castP annualized_return)
        sharpe_ratio := pround 4 sharpe_ratio
        max_drawdown := pround 6 (castP max_drawdown)
        calmar_ratio := pround 4 (castP calmar_ratio)
        win_rate := pround 4 (PVal.val (win_rate : ℝ))
        volatility := pround 6 volatility
        avg_margin_ratio := pround 4 (castP avg_margin_ratio)
        performance_score := pround 2 performance_score
        risk_score := pround 2 risk_score
        total_score := pround 2 total_score }

/-! ## Claim C6 -/

/-- C6: `calculate_performance` returns an absent result exactly when fewer
than 2 equity records are supplied, and `calculate_daily_metrics` returns
an absent result exactly when the equity row's equity is non-positive; in
every other case both are populated (the embedding is total: no other
control path exists). -/
theorem C6_absent_iff (risk_free_rate : ℚ) (rows : List EquityRow)
    (code : String) (er : EquityRow) (ps : List PositionRow)
    (ts : List TradeRow) :
    ((calculate_performance risk_free_rate rows code).isSome ↔ 2 ≤ rows.length) ∧
    ((calculate_daily_metrics er ps ts).isSome ↔ 0 < er.equity) := by
  constructor
  · unfold calculate_performance
    by_cases h : rows.length < 2
    · rw [if_pos h]
      simp only [Option.isSome_none, Bool.false_eq_true, false_iff]
      omega
    · rw [if_neg h]
      simp only [Option.isSome_some, true_iff]
      omega
  · unfold calculate_daily_metrics
    by_cases h : er.equity ≤ 0
    · rw [if_pos h]
      simp only [Option.isSome_none, Bool.false_eq_true, false_iff, not_lt]
      exact h
    · rw [if_neg h]
      simp only [Option.isSome_some, true_iff]
      linarith [not_le.mp h]

/-! ## Claim C3 -/

theorem dailyReturnsGo_get_succ :
    ∀ (l : List EquityRow) (prev : Option ℚ) (i : ℕ) (rp r : EquityRow),
      l.get? i = some rp → l.get? (i + 1) = some r →
      (dailyReturnsGo prev l).get? (i + 1) =
        some (fixNan (rawReturn (some rp.equity) r)) := by
  intro l
  induction l with
  | nil => intro prev i rp r h _; simp at h
  | cons a l ih =>
      intro prev i rp r hp hr
      cases i with
      | zero =>
          rw [List.get?_cons_zero, Option.some.injEq] at hp
          subst hp
          rw [List.get?_cons_succ] at hr
          cases l with
          | nil => simp at hr
          | cons b l2 =>
              rw [List.get?_cons_zero, Option.some.injEq] at hr
              subst hr
              rfl
      | succ j =>
          rw [List.get?_cons_succ] at hp hr
          exact ih (some a.equity) j rp r hp hr

/-- C3 (amended): in `calculate_daily_returns`, a day with a missing
previous equity (the first row) gets `daily_return = 0` (NaN is replaced),
and a day whose previous equity is zero gets 0 only when the numerator
`equity - prev_equity - deposit_withdraw` is also zero (the `0/0` NaN
case); when the numerator is nonzero the stored value is ±infinity, not 0
(see the counterexample). -/
theorem C3_zero_prev_guard (rows : List EquityRow) :
    (∀ r l, sortByDate rows = r :: l →
      (dailyReturnCol (sortByDate rows)).get? 0 = some (PVal.val 0)) ∧
    (∀ (i : ℕ) (rp r : EquityRow), (sortByDate rows).get? i = some rp →
      (sortByDate rows).get? (i + 1) = some r → rp.equity = 0 →
      r.equity - rp.equity - r.deposit_withdraw = 0 →
      (dailyReturnCol (sortByDate rows)).get? (i + 1) = some (PVal.val 0)) := by
  constructor
  · intro r l hrl
    rw [dailyReturnCol, hrl]
    rfl
  · intro i rp r hp hr hz hnum
    rw [dailyReturnCol, dailyReturnsGo_get_succ (sortByDate rows) none i rp r hp hr]
    rw [hz] at hnum
    have hnum2 : r.equity - r.deposit_withdraw = 0 := by linarith
    simp [rawReturn, fixNan, PVal.pdiv, hz, hnum2, PVal.isNan]

/-- First equity row of the counterexample: zero equity. -/
def exZeroEq0 : EquityRow :=
  { strategy_code := "S", trade_date := "2024-01-01", equity := 0
    deposit_withdraw := 0, margin_used := 0 }

/-- Second equity row of the counterexample: equity 100 after a zero-equity
day. -/
def exZeroEq1 : EquityRow :=
  { strategy_code := "S", trade_date := "2024-01-02", equity := 100
    deposit_withdraw := 0, margin_used := 0 }

/-- C3, counterexample: after a zero-equity day, a day with a nonzero
numerator gets `daily_return = +infinity` (NumPy division by zero), not 0 —
the NaN fix-up only catches the `isna` rows. -/
theorem C3_counterexample :
    (dailyReturnCol (sortByDate [exZeroEq0, exZeroEq1])).get? 1 =
      some PVal.inf := by
  with_unfolding_all decide

/-- Second witness row: the `0/0` NaN case (deposit equal to the equity). -/
def exZeroEq2 : EquityRow :=
  { strategy_code := "S", trade_date := "2024-01-02", equity := 100
    deposit_withdraw := 100, margin_used := 0 }

/-- Witness for C3: the amended guard applied to a concrete series — the
first row gets 0, and a zero-previous-equity row with zero numerator gets
0. -/
theorem C3_zero_prev_guard_witness :
    (dailyReturnCol (sortByDate [exZeroEq0, exZeroEq2])).get? 0 =
      some (PVal.val 0) ∧
    (dailyReturnCol (sortByDate [exZeroEq0, exZeroEq2])).get? 1 =
      some (PVal.val 0) :=
  ⟨(C3_zero_prev_guard [exZeroEq0, exZeroEq2]).1 exZeroEq0 [exZeroEq2]
      (by with_unfolding_all decide),
   (C3_zero_prev_guard [exZeroEq0, exZeroEq2]).2 0 exZeroEq0 exZeroEq2
      (by with_unfolding_all decide) (by with_unfolding_all decide)
      (by with_unfolding_all decide) (by with_unfolding_all decide)⟩

/-! ## Claim C5: score bounds and the midpoint identity -/

theorem padd_val {α : Type} [LinearOrderedField α] (a b : α) :
    PVal.padd (PVal.val a) (PVal.val b) = PVal.val (a + b) := rfl

theorem pmul_val {α : Type} [LinearOrderedField α] (a b : α) :
    PVal.pmul (PVal.val a) (PVal.val b) = PVal.val (a * b) := rfl

theorem psub_val {α : Type} [LinearOrderedField α] (a b : α) :
    PVal.psub (PVal.val a) (PVal.val b) = PVal.val (a - b) := by
  unfold PVal.psub PVal.pneg
  rw [padd_val, sub_eq_add_neg]

theorem pmax2_val {α : Type} [LinearOrderedField α] (a b : α) :
    PVal.pmax2 (PVal.val a) (PVal.val b) = PVal.val (max a b) := by
  unfold PVal.pmax2 PVal.plt
  split_ifs with h
  · rw [max_eq_right (le_of_lt h)]
  · rw [max_eq_left (not_lt.mp h)]

theorem pymax_zero_val {α : Type} [LinearOrderedField α] (x : α) :
    PVal.pymax (PVal.val 0) (PVal.val x) = PVal.val (max 0 x) := by
  unfold PVal.pymax PVal.plt
  split_ifs with h
  · rw [max_eq_right (le_of_lt h)]
  · rw [max_eq_left (not_lt.mp h)]

theorem pymax_val {α : Type} [LinearOrderedField α] (a b : α) :
    PVal.pymax (PVal.val a) (PVal.val b) = PVal.val (max a b) := by
  unfold PVal.pymax PVal.plt
  split_ifs with h
  · rw [max_eq_right (le_of_lt h)]
  · rw [max_eq_left (not_lt.mp h)]

theorem pymin_val {α : Type} [LinearOrderedField α] (a b : α) :
    PVal.pymin (PVal.val a) (PVal.val b) = PVal.val (min a b) := by
  unfold PVal.pymin PVal.plt
  split_ifs with h
  · rw [min_eq_right (le_of_lt h)]
  · rw [min_eq_left (not_lt.mp h)]

/-- Two-sided clamp `min(hi, max(0, X))` always produces a finite value in
`[0, hi]`, whatever `X` is (including NaN and infinities). -/
theorem clamp_bounds {hi : α} [LinearOrderedField α] (hhi : 0 ≤ hi)
    (X : PVal α) :
    ∃ c, PVal.pymin (PVal.val hi) (PVal.pymax (PVal.val 0) X) = PVal.val c ∧
      0 ≤ c ∧ c ≤ hi := by
  cases X with
  | nan =>
      refine ⟨0, ?_, le_refl 0, hhi⟩
      unfold PVal.pymax PVal.pymin PVal.plt
      simp
      intro h
      exact le_antisymm h hhi
  | inf =>
      refine ⟨hi, ?_, hhi, le_refl hi⟩
      unfold PVal.pymax PVal.pymin PVal.plt
      simp
  | ninf =>
      refine ⟨0, ?_, le_refl 0, hhi⟩
      unfold PVal.pymax PVal.pymin PVal.plt
      simp
      intro h
      exact le_antisymm h hhi
  | val x =>
      refine ⟨min hi (max 0 x), ?_, le_min hhi (le_max_left 0 x), min_le_left hi _⟩
      rw [pymax_zero_val]
      unfold PVal.pymin PVal.plt
      split_ifs with h
      · rw [min_eq_right (le_of_lt h)]
      · rw [min_eq_left (not_lt.mp h)]

/-- One-sided clamp `max(0, b - y·k)` with `y ≥ 0` produces a value in
`[0, b]`. -/
theorem clamp_low_bounds {α : Type} [LinearOrderedField α] {b y k : α}
    (hb : 0 ≤ b) (hy : 0 ≤ y) (hk : 0 ≤ k) :
    ∃ c, PVal.pymax (PVal.val 0)
        (PVal.psub (PVal.val b) (PVal.pmul (PVal.val y) (PVal.val k))) =
      PVal.val c ∧ 0 ≤ c ∧ c ≤ b := by
  rw [pmul_val, psub_val, pymax_zero_val]
  refine ⟨max 0 (b - y * k), rfl, le_max_left 0 _, ?_⟩
  rw [max_le_iff]
  constructor
  · exact hb
  · nlinarith


theorem pdiv_val_of_ne {α : Type} [LinearOrderedField α] (a : α) {b : α}
    (hb : b ≠ 0) :
    PVal.pdiv (PVal.val a) (PVal.val b) = PVal.val (a / b) := by
  simp only [PVal.pdiv]
  rw [if_neg hb]

theorem runningMaxGo_zip_facts :
    ∀ (es : List ℚ) (acc : Option ℚ), (∀ x ∈ es, 0 < x) →
      (∀ m, acc = some m → 0 < m) →
      ∀ pr ∈ (runningMaxGo acc es).zip es, 0 < pr.1 ∧ pr.2 ≤ pr.1 := by
  intro es
  induction es with
  | nil => intro acc _ _ pr hpr; simp [runningMaxGo] at hpr
  | cons x l ih =>
      intro acc hpos hacc pr hpr
      have hposx : 0 < x := hpos x (List.mem_cons_self x l)
      have hpos' : ∀ y ∈ l, 0 < y := fun y hy => hpos y (List.mem_cons_of_mem x hy)
      cases acc with
      | none =>
          rw [runningMaxGo, List.zip_cons_cons] at hpr
          rcases List.mem_cons.mp hpr with h | h
          · subst h
            exact ⟨hposx, le_refl x⟩
          · refine ih (some x) hpos' ?_ pr h
            intro m hm
            rw [Option.some.injEq] at hm
            subst hm
            exact hposx
      | some m =>
          have hm0 : 0 < m := hacc m rfl
          rw [runningMaxGo, List.zip_cons_cons] at hpr
          rcases List.mem_cons.mp hpr with h | h
          · subst h
            exact ⟨lt_of_lt_of_le hm0 (le_max_left m x), le_max_right m x⟩
          · refine ih (some (max m x)) hpos' ?_ pr h
            intro m' hm'
            rw [Option.some.injEq] at hm'
            subst hm'
            exact lt_of_lt_of_le hm0 (le_max_left m x)

theorem drawdownCol_val {rows : List EquityRow}
    (hpos : ∀ r ∈ rows, 0 < r.equity) :
    ∀ x ∈ drawdownCol rows, ∃ q, x = PVal.val q ∧ 0 ≤ q := by
  intro x hx
  rw [drawdownCol, List.mem_map] at hx
  obtain ⟨pr, hpr, rfl⟩ := hx
  unfold runningMaxCol at hpr
  have hfacts := runningMaxGo_zip_facts (rows.map (fun r => r.equity)) none
    (by
      intro y hy
      rw [List.mem_map] at hy
      obtain ⟨r, hr, rfl⟩ := hy
      exact hpos r hr)
    (by intro m hm; simp at hm) pr hpr
  refine ⟨(pr.1 - pr.2) / pr.1, pdiv_val_of_ne _ (ne_of_gt hfacts.1), ?_⟩
  exact div_nonneg (by linarith [hfacts.2]) (le_of_lt hfacts.1)

theorem cummaxPGo_cons_none {x : PVal ℚ} (hx : ¬ x.isNan) (l : List (PVal ℚ)) :
    cummaxPGo none (x :: l) = x :: cummaxPGo (some x) l := by
  simp [cummaxPGo, hx]

theorem cummaxPGo_cons_some (m : PVal ℚ) {x : PVal ℚ} (hx : ¬ x.isNan)
    (l : List (PVal ℚ)) :
    cummaxPGo (some m) (x :: l) =
      PVal.pmax2 m x :: cummaxPGo (some (PVal.pmax2 m x)) l := by
  simp [cummaxPGo, hx]

theorem cummaxPGo_val :
    ∀ (l : List (PVal ℚ)) (acc : Option (PVal ℚ)),
      (∀ x ∈ l, ∃ q, x = PVal.val q ∧ 0 ≤ q) →
      (∀ a, acc = some a → ∃ q, a = PVal.val q ∧ 0 ≤ q) →
      ∀ y ∈ cummaxPGo acc l, ∃ q, y = PVal.val q ∧ 0 ≤ q := by
  intro l
  induction l with
  | nil => intro acc _ _ y hy; simp [cummaxPGo] at hy
  | cons x l ih =>
      intro acc hl hacc y hy
      obtain ⟨q, rfl, hq⟩ := hl x (List.mem_cons_self x l)
      have hl' : ∀ z ∈ l, ∃ q2, z = PVal.val q2 ∧ 0 ≤ q2 :=
        fun z hz => hl z (List.mem_cons_of_mem (PVal.val q) hz)
      cases hc : acc with
      | none =>
          rw [hc, cummaxPGo_cons_none (by simp [PVal.isNan])] at hy
          rcases List.mem_cons.mp hy with h | h
          · subst h
            exact ⟨q, rfl, hq⟩
          · refine ih (some (PVal.val q)) hl' ?_ y h
            intro a ha
            rw [Option.some.injEq] at ha
            exact ⟨q, ha.symm, hq⟩
      | some m =>
          obtain ⟨qm, rfl, hqm⟩ := hacc m hc
          rw [hc, cummaxPGo_cons_some _ (by simp [PVal.isNan]), pmax2_val] at hy
          rcases List.mem_cons.mp hy with h | h
          · subst h
            exact ⟨max qm q, rfl, le_trans hqm (le_max_left qm q)⟩
          · refine ih (some (PVal.val (max qm q))) hl' ?_ y h
            intro a ha
            rw [Option.some.injEq] at ha
            exact ⟨max qm q, ha.symm, le_trans hqm (le_max_left qm q)⟩

theorem foldl_pmax2_val :
    ∀ (xs : List (PVal ℚ)) (x : PVal ℚ),
      (∃ q, x = PVal.val q ∧ 0 ≤ q) →
      (∀ y ∈ xs, ∃ q, y = PVal.val q ∧ 0 ≤ q) →
      ∃ q, xs.foldl PVal.pmax2 x = PVal.val q ∧ 0 ≤ q := by
  intro xs
  induction xs with
  | nil => intro x hx _; exact hx
  | cons y ys ih =>
      intro x hx hmem
      obtain ⟨qx, rfl, hqx⟩ := hx
      obtain ⟨qy, rfl, hqy⟩ := hmem y (List.mem_cons_self y ys)
      rw [List.foldl_cons, pmax2_val]
      exact ih (PVal.val (max qx qy))
        ⟨max qx qy, rfl, le_trans hqx (le_max_left qx qy)⟩
        (fun z hz => hmem z (List.mem_cons_of_mem (PVal.val qy) hz))

theorem filter_notNan_of_val {l : List (PVal ℚ)}
    (h : ∀ x ∈ l, ∃ q, x = PVal.val q ∧ 0 ≤ q) :
    l.filter (fun x => decide (¬ x.isNan)) = l := by
  rw [List.filter_eq_self]
  intro x hx
  obtain ⟨q, rfl, _⟩ := h x hx
  simp [PVal.isNan]

theorem pmaxList_val {l : List (PVal ℚ)} (hne : l ≠ [])
    (h : ∀ x ∈ l, ∃ q, x = PVal.val q ∧ 0 ≤ q) :
    ∃ q, pmaxList l = PVal.val q ∧ 0 ≤ q := by
  unfold pmaxList
  rw [filter_notNan_of_val h]
  cases l with
  | nil => exact absurd rfl hne
  | cons x xs =>
      exact foldl_pmax2_val xs x (h x (List.mem_cons_self x xs))
        (fun y hy => h y (List.mem_cons_of_mem x hy))

theorem pmean_val {l : List (PVal ℚ)} (hne : l ≠ [])
    (h : ∀ x ∈ l, ∃ q, x = PVal.val q ∧ 0 ≤ q) :
    ∃ q, pmean l = PVal.val q ∧ 0 ≤ q := by
  unfold pmean
  rw [filter_notNan_of_val h]
  have hnoinf : l.any (fun x => decide (x = PVal.inf)) = false := by
    rw [List.any_eq_false]
    intro x hx
    obtain ⟨q, rfl, _⟩ := h x hx
    simp
  have hnoninf : l.any (fun x => decide (x = PVal.ninf)) = false := by
    rw [List.any_eq_false]
    intro x hx
    obtain ⟨q, rfl, _⟩ := h x hx
    simp
  rw [if_neg hne, hnoinf, hnoninf]
  simp only [Bool.false_and, Bool.false_eq_true, if_false]
  refine ⟨(l.filterMap PVal.toVal).sum / (l.length : ℚ), rfl, ?_⟩
  refine div_nonneg (List.sum_nonneg ?_) (by positivity)
  intro y hy
  rw [List.mem_filterMap] at hy
  obtain ⟨x, hx, htv⟩ := hy
  obtain ⟨q, rfl, hq⟩ := h x hx
  unfold PVal.toVal at htv
  rw [Option.some.injEq] at htv
  subst htv
  exact hq

theorem length_runningMaxGo :
    ∀ (es : List ℚ) (acc : Option ℚ), (runningMaxGo acc es).length = es.length := by
  intro es
  induction es with
  | nil => intro acc; rfl
  | cons x l ih =>
      intro acc
      cases acc <;> simp [runningMaxGo, ih]

theorem length_cummaxPGo :
    ∀ (l : List (PVal ℚ)) (acc : Option (PVal ℚ)),
      (cummaxPGo acc l).length = l.length := by
  intro l
  induction l with
  | nil => intro acc; rfl
  | cons x l ih =>
      intro acc
      by_cases hx : x.isNan
      · simp [cummaxPGo, hx, ih]
      · cases acc <;> simp [cummaxPGo, hx, ih]

theorem length_maxDrawdownCol (rows : List EquityRow) :
    (maxDrawdownCol rows).length = rows.length := by
  rw [maxDrawdownCol, length_cummaxPGo, drawdownCol, List.length_map,
    List.length_zip, runningMaxCol, length_runningMaxGo, List.length_map]
  simp

theorem maxDrawdownCol_ne_nil {rows : List EquityRow} (h : rows ≠ []) :
    maxDrawdownCol rows ≠ [] := by
  intro hnil
  have := length_maxDrawdownCol rows
  rw [hnil] at this
  simp only [List.length_nil] at this
  exact h (List.length_eq_zero.mp this.symm)

theorem pstdVar_cases (l : List (PVal ℚ)) :
    pstdVar l = PVal.nan ∨ ∃ q, pstdVar l = PVal.val q := by
  simp only [pstdVar]
  split_ifs
  · exact Or.inl rfl
  · exact Or.inl rfl
  · exact Or.inr ⟨_, rfl⟩

theorem volatility_val (l : List (PVal ℚ)) :
    ∃ v, (if (psqrt (pstdVar l)).isNan then PVal.val 0
      else PVal.pmul (psqrt (pstdVar l)) (PVal.val (Real.sqrt 252))) =
        PVal.val v ∧ 0 ≤ v := by
  rcases pstdVar_cases l with h | ⟨q, h⟩
  · rw [h]
    refine ⟨0, ?_, le_refl 0⟩
    rw [if_pos (by simp [psqrt, PVal.isNan])]
  · rw [h]
    refine ⟨Real.sqrt q * Real.sqrt 252, ?_,
      mul_nonneg (Real.sqrt_nonneg _) (Real.sqrt_nonneg _)⟩
    rw [if_neg (by simp [psqrt, PVal.isNan])]
    rfl

theorem castP_val (q : ℚ) : castP (PVal.val q) = PVal.val (q : ℝ) := rfl

theorem pround_val (d : ℕ) (x : ℝ) :
    pround d (PVal.val x) = PVal.val (roundTo d x) := rfl

theorem perfScoreRaw_bounds (T S : PVal ℝ) {dq w : ℝ} (hd : 0 ≤ dq)
    (hw0 : 0 ≤ w) (hw1 : w ≤ 1) :
    ∃ p, perfScoreRaw T S (PVal.val dq) (PVal.val w) = PVal.val p ∧
      0 ≤ p ∧ p ≤ 100 := by
  obtain ⟨c1, h1, h1a, h1b⟩ := clamp_bounds (by norm_num : (0:ℝ) ≤ 40)
    (PVal.pmul (PVal.padd T (PVal.val (5 / 100))) (PVal.val 200))
  obtain ⟨c2, h2, h2a, h2b⟩ := clamp_bounds (by norm_num : (0:ℝ) ≤ 30)
    (PVal.pmul S (PVal.val 15))
  obtain ⟨c3, h3, h3a, h3b⟩ := clamp_low_bounds
    (by norm_num : (0:ℝ) ≤ 20) hd (by norm_num : (0:ℝ) ≤ 100)
  refine ⟨c1 + c2 + c3 + w * 10, ?_, by nlinarith, by nlinarith⟩
  unfold perfScoreRaw
  rw [h1, h2, h3]
  simp only [pmul_val, padd_val]

theorem riskScoreRaw_bounds {aq v dq : ℝ} (ha : 0 ≤ aq) (hv : 0 ≤ v)
    (hd : 0 ≤ dq) :
    ∃ r, riskScoreRaw (PVal.val aq) (PVal.val v) (PVal.val dq) = PVal.val r ∧
      0 ≤ r ∧ r ≤ 100 := by
  obtain ⟨c1, h1, h1a, h1b⟩ := clamp_low_bounds
    (by norm_num : (0:ℝ) ≤ 40) ha (by norm_num : (0:ℝ) ≤ 80)
  obtain ⟨c2, h2, h2a, h2b⟩ := clamp_low_bounds
    (by norm_num : (0:ℝ) ≤ 30) hv (by norm_num : (0:ℝ) ≤ 60)
  obtain ⟨c3, h3, h3a, h3b⟩ := clamp_low_bounds
    (by norm_num : (0:ℝ) ≤ 30) hd (by norm_num : (0:ℝ) ≤ 150)
  refine ⟨c1 + c2 + c3, ?_, by nlinarith, by nlinarith⟩
  unfold riskScoreRaw
  rw [h1, h2, h3]
  simp only [padd_val]

theorem winRate_bounds (dr : List (PVal ℚ)) :
    0 ≤ (if 0 < dr.countP (fun x => decide (PVal.pne x (PVal.val 0))) then
        ((dr.countP (fun x => decide (PVal.plt (PVal.val 0) x)) : ℚ)) /
          ((dr.countP (fun x => decide (PVal.pne x (PVal.val 0))) : ℚ))
      else 0) ∧
    (if 0 < dr.countP (fun x => decide (PVal.pne x (PVal.val 0))) then
        ((dr.countP (fun x => decide (PVal.plt (PVal.val 0) x)) : ℚ)) /
          ((dr.countP (fun x => decide (PVal.pne x (PVal.val 0))) : ℚ))
      else 0) ≤ 1 := by
  have hmono : dr.countP (fun x => decide (PVal.plt (PVal.val 0) x)) ≤
      dr.countP (fun x => decide (PVal.pne x (PVal.val 0))) := by
    refine List.countP_mono_left ?_
    intro x _ hx
    rw [decide_eq_true_eq] at hx ⊢
    cases x with
    | nan => exact absurd hx (by simp [PVal.plt])
    | inf => simp [PVal.pne]
    | ninf => exact absurd hx (by simp [PVal.plt])
    | val q =>
        simp only [PVal.plt] at hx
        simp only [PVal.pne]
        exact ne_of_gt hx
  by_cases h : 0 < dr.countP (fun x => decide (PVal.pne x (PVal.val 0)))
  · rw [if_pos h]
    constructor
    · positivity
    · rw [div_le_one (by exact_mod_cast h)]
      exact_mod_cast hmono
  · rw [if_neg h]
    norm_num

theorem roundTo_mem_0_100 {x : ℝ} (h0 : 0 ≤ x) (h1 : x ≤ 100) :
    0 ≤ roundTo 2 x ∧ roundTo 2 x ≤ 100 := by
  have hz : roundTo 2 (0 : ℝ) = 0 := roundTo_zero 2
  have hh : roundTo 2 (100 : ℝ) = 100 := roundTo_of_int_mul 2 10000 _ (by norm_num)
  constructor
  · rw [← hz]
    exact roundTo_le_of_le 2 h0
  · rw [← hh]
    exact roundTo_le_of_le 2 h1

/-- C5 (amended): for at least two equity rows with positive equity and
nonnegative margin everywhere, `calculate_performance` returns a populated
record whose stored `performance_score`, `risk_score` and `total_score` all
lie in [0,100]; the stored total is the rounding of the exact midpoint
`(p + r) / 2` of the two unrounded component scores.  The claim's stronger
identity — that the stored `total_score` equals the midpoint of the stored
(independently rounded) `performance_score` and `risk_score` — fails (see
the counterexample). -/
theorem C5_scores (risk_free_rate : ℚ) (rows : List EquityRow) (code : String)
    (hlen : 2 ≤ rows.length)
    (hpos : ∀ r ∈ rows, 0 < r.equity)
    (hmar : ∀ r ∈ rows, 0 ≤ r.margin_used) :
    ∃ (m : PerformanceMetrics) (p r : ℝ),
      calculate_performance risk_free_rate rows code = some m ∧
      m.performance_score = PVal.val (roundTo 2 p) ∧
      m.risk_score = PVal.val (roundTo 2 r) ∧
      m.total_score = PVal.val (roundTo 2 ((p + r) / 2)) ∧
      0 ≤ p ∧ p ≤ 100 ∧ 0 ≤ r ∧ r ≤ 100 ∧
      0 ≤ roundTo 2 p ∧ roundTo 2 p ≤ 100 ∧
      0 ≤ roundTo 2 r ∧ roundTo 2 r ≤ 100 ∧
      0 ≤ roundTo 2 ((p + r) / 2) ∧ roundTo 2 ((p + r) / 2) ≤ 100 := by
  have hpos2 : ∀ r ∈ sortByDate rows, 0 < r.equity := by
    intro r hr
    exact hpos r ((mem_stableSortBy _ _ _).mp hr)
  have hmar2 : ∀ r ∈ sortByDate rows, 0 ≤ r.margin_used := by
    intro r hr
    exact hmar r ((mem_stableSortBy _ _ _).mp hr)
  have hlen2 : (sortByDate rows).length = rows.length :=
    (stableSortBy_perm _ rows).length_eq
  have hne : sortByDate rows ≠ [] := by
    intro h
    rw [h] at hlen2
    simp only [List.length_nil] at hlen2
    omega
  have hmddvals : ∀ y ∈ maxDrawdownCol (sortByDate rows),
      ∃ q, y = PVal.val q ∧ 0 ≤ q := by
    intro y hy
    rw [maxDrawdownCol] at hy
    refine cummaxPGo_val _ none (drawdownCol_val hpos2) ?_ y hy
    intro a ha
    simp at ha
  obtain ⟨dq, hmdd, hdq⟩ := pmaxList_val (maxDrawdownCol_ne_nil hne) hmddvals
  have hratios : ∀ x ∈ (sortByDate rows).map
      (fun r => PVal.pdiv (PVal.val r.margin_used) (PVal.val r.equity)),
      ∃ q, x = PVal.val q ∧ 0 ≤ q := by
    intro x hx
    rw [List.mem_map] at hx
    obtain ⟨r, hr, rfl⟩ := hx
    refine ⟨r.margin_used / r.equity,
      pdiv_val_of_ne _ (ne_of_gt (hpos2 r hr)), ?_⟩
    exact div_nonneg (hmar2 r hr) (le_of_lt (hpos2 r hr))
  obtain ⟨aq, hamr, haq⟩ := pmean_val
    (by
      intro h
      exact hne (List.map_eq_nil_iff.mp h)) hratios
  obtain ⟨v, hvol, hv⟩ := volatility_val (dailyReturnCol (sortByDate rows))
  obtain ⟨hw0, hw1⟩ := winRate_bounds (dailyReturnCol (sortByDate rows))
  have hamr2 : (if (pmean ((sortByDate rows).map
      (fun r => PVal.pdiv (PVal.val r.margin_used) (PVal.val r.equity)))).isNan
      then PVal.val 0
      else pmean ((sortByDate rows).map
        (fun r => PVal.pdiv (PVal.val r.margin_used) (PVal.val r.equity)))) =
      PVal.val aq := by
    rw [hamr]
    rw [if_neg (by simp [PVal.isNan])]
  simp only [calculate_performance]
  rw [if_neg (by omega)]
  rw [hmdd, hamr2, hvol]
  simp only [castP_val]
  obtain ⟨p, hP, hp0, hp100⟩ := perfScoreRaw_bounds
    (castP ((cumulativeReturnCol (sortByDate rows)).getLastD (PVal.val 0)))
    (if PVal.plt (PVal.val 0) (PVal.val v) then
      PVal.pdiv (castP (PVal.psub
        (if 0 < (sortByDate rows).length then
          PVal.pmul ((cumulativeReturnCol (sortByDate rows)).getLastD (PVal.val 0))
            (PVal.val (252 / ((sortByDate rows).length : ℚ)))
        else PVal.val 0)
        (PVal.val risk_free_rate))) (PVal.val v)
    else PVal.val 0)
    (show (0:ℝ) ≤ (dq : ℝ) by exact_mod_cast hdq)
    (show (0:ℝ) ≤ (((if 0 < (dailyReturnCol (sortByDate rows)).countP
        (fun x => decide (PVal.pne x (PVal.val 0))) then
        (((dailyReturnCol (sortByDate rows)).countP
          (fun x => decide (PVal.plt (PVal.val 0) x)) : ℚ)) /
          (((dailyReturnCol (sortByDate rows)).countP
            (fun x => decide (PVal.pne x (PVal.val 0))) : ℚ))
      else 0) : ℚ) : ℝ) by exact_mod_cast hw0)
    (show ((((if 0 < (dailyReturnCol (sortByDate rows)).countP
        (fun x => decide (PVal.pne x (PVal.val 0))) then
        (((dailyReturnCol (sortByDate rows)).countP
          (fun x => decide (PVal.plt (PVal.val 0) x)) : ℚ)) /
          (((dailyReturnCol (sortByDate rows)).countP
            (fun x => decide (PVal.pne x (PVal.val 0))) : ℚ))
      else 0) : ℚ) : ℝ)) ≤ 1 by exact_mod_cast hw1)
  obtain ⟨r, hR, hr0, hr100⟩ := riskScoreRaw_bounds
    (show (0:ℝ) ≤ (aq : ℝ) by exact_mod_cast haq) hv
    (show (0:ℝ) ≤ (dq : ℝ) by exact_mod_cast hdq)
  have hmid0 : 0 ≤ (p + r) / 2 := by linarith
  have hmid1 : (p + r) / 2 ≤ 100 := by linarith
  refine ⟨_, p, r, rfl, ?_, ?_, ?_, hp0, hp100, hr0, hr100,
    (roundTo_mem_0_100 hp0 hp100).1, (roundTo_mem_0_100 hp0 hp100).2,
    (roundTo_mem_0_100 hr0 hr100).1, (roundTo_mem_0_100 hr0 hr100).2,
    (roundTo_mem_0_100 hmid0 hmid1).1, (roundTo_mem_0_100 hmid0 hmid1).2⟩
  · dsimp only
    rw [hP, pround_val]
  · dsimp only
    rw [hR, pround_val]
  · dsimp only
    rw [hP, hR]
    simp only [pmul_val, padd_val, pround_val]
    have hhalf : p * (1 / 2) + r * (1 / 2) = (p + r) / 2 := by ring
    rw [hhalf]

/-- First row of the C5 counterexample equity series. -/
def w5a : EquityRow :=
  { strategy_code := "S", trade_date := "1", equity := 4000,
    deposit_withdraw := 0, margin_used := 2999 }

/-- Second row of the C5 counterexample equity series. -/
def w5b : EquityRow :=
  { strategy_code := "S", trade_date := "2", equity := 4000,
    deposit_withdraw := 0, margin_used := 0 }

/-- pandas `mean` of two finite values. -/
theorem pmean_two_val (a b : ℚ) :
    pmean [PVal.val a, PVal.val b] = PVal.val ((a + b) / 2) := by
  simp [pmean, PVal.isNan, PVal.toVal]

/-- C5 counterexample: on the two-row series `[w5a, w5b]` the unrounded
component scores are 30 and 70.01, so the stored `performance_score` is 30,
the stored `risk_score` is 70.01, and the stored `total_score` is the
banker's rounding of the exact midpoint 50.005 to the even cent, i.e. 50 —
while the midpoint of the two stored (independently rounded) scores is
50.005.  The claim's identity `total_score = (performance_score +
risk_score) / 2` on the stored fields therefore fails. -/
theorem C5_counterexample :
    ∃ m, calculate_performance 0 [w5a, w5b] "S" = some m ∧
      m.performance_score = PVal.val 30 ∧
      m.risk_score = PVal.val (7001 / 100) ∧
      m.total_score = PVal.val 50 ∧
      (50 : ℝ) ≠ ((30 : ℝ) + 7001 / 100) / 2 := by
  have hsort : sortByDate [w5a, w5b] = [w5a, w5b] := by
    simp [sortByDate, stableSortBy, stableInsert, w5a, w5b]
    decide
  have hdr : dailyReturnCol [w5a, w5b] = [PVal.val 0, PVal.val 0] := by
    with_unfolding_all decide
  have hcum : (cumulativeReturnCol [w5a, w5b]).getLastD (PVal.val 0) =
      PVal.val 0 := by with_unfolding_all decide
  have hstd : pstdVar [PVal.val (0 : ℚ), PVal.val 0] = PVal.val 0 := by
    with_unfolding_all decide
  have hmdd : pmaxList (maxDrawdownCol [w5a, w5b]) = PVal.val 0 := by
    with_unfolding_all decide
  have hmap : [w5a, w5b].map (fun r =>
      PVal.pdiv (PVal.val r.margin_used) (PVal.val r.equity)) =
      [PVal.val ((2999 : ℚ) / 4000), PVal.val 0] := by
    simp only [List.map_cons, List.map_nil, w5a, w5b]
    rw [pdiv_val_of_ne _ (by norm_num), pdiv_val_of_ne _ (by norm_num)]
    norm_num
  have hamr : pmean ([w5a, w5b].map (fun r =>
      PVal.pdiv (PVal.val r.margin_used) (PVal.val r.equity))) =
      PVal.val (2999 / 8000) := by
    rw [hmap, pmean_two_val]
    norm_num
  have hc2 : [PVal.val (0 : ℚ), PVal.val 0].countP
      (fun x => decide (PVal.pne x (PVal.val 0))) = 0 := by
    with_unfolding_all decide
  have hsq : psqrt (PVal.val (0 : ℚ)) = PVal.val (0 : ℝ) := by
    simp [psqrt]
  have hvol0 : PVal.pmul (PVal.val (0 : ℝ)) (PVal.val (Real.sqrt 252)) =
      PVal.val 0 := by rw [pmul_val, zero_mul]
  have hnanR : ¬ (PVal.val (0 : ℝ)).isNan := by simp [PVal.isNan]
  have hnanQ : ¬ (PVal.val ((2999 : ℚ) / 8000)).isNan := by simp [PVal.isNan]
  have hplt : ¬ PVal.plt (PVal.val (0 : ℝ)) (PVal.val 0) := by
    simp [PVal.plt]
  have hperf : perfScoreRaw (PVal.val (0 : ℝ)) (PVal.val 0) (PVal.val 0)
      (PVal.val 0) = PVal.val 30 := by
    unfold perfScoreRaw
    simp only [padd_val, pmul_val, psub_val, pymax_val, pymin_val]
    norm_num [min_def, max_def]
  have hrisk : riskScoreRaw (PVal.val (((2999 : ℚ) / 8000 : ℚ) : ℝ))
      (PVal.val 0) (PVal.val 0) = PVal.val (7001 / 100) := by
    unfold riskScoreRaw
    simp only [psub_val, pmul_val, padd_val, pymax_val]
    push_cast
    norm_num [max_def]
  have hfl : ⌊(10001 / 200 : ℝ) * 10 ^ 2⌋ = 5000 := by
    have h : (10001 / 200 : ℝ) * 10 ^ 2 = 10001 / 2 := by norm_num
    rw [h, Int.floor_eq_iff]
    norm_num
  have h50 : roundTo 2 (10001 / 200 : ℝ) = 50 := by
    unfold roundTo rnd
    rw [hfl]
    rw [if_neg (by push_cast; norm_num), if_neg (by push_cast; norm_num),
      if_pos (by norm_num)]
    norm_num
  have h30 : roundTo 2 (30 : ℝ) = 30 :=
    roundTo_of_int_mul 2 3000 _ (by norm_num)
  have h7001 : roundTo 2 (7001 / 100 : ℝ) = 7001 / 100 :=
    roundTo_of_int_mul 2 7001 _ (by norm_num)
  simp only [calculate_performance]
  rw [if_neg (by decide)]
  rw [hsort, hdr, hcum, hstd, hmdd, hamr, hc2]
  rw [if_neg (lt_irrefl (0 : ℕ))]
  rw [hsq]
  rw [if_neg hnanR, if_neg hnanQ]
  rw [hvol0]
  rw [if_neg hplt]
  simp only [castP_val, Rat.cast_zero]
  rw [hperf, hrisk]
  have hmidv : (30 : ℝ) * (1 / 2) + 7001 / 100 * (1 / 2) = 10001 / 200 := by
    norm_num
  simp only [pmul_val, padd_val]
  rw [hmidv]
  simp only [pround_val]
  rw [h30, h7001, h50]
  exact ⟨_, rfl, rfl, rfl, rfl, by norm_num⟩

/-- Witness: `C5_scores` applied to the concrete two-row series
`[w5a, w5b]`, whose rows all have positive equity and nonnegative margin. -/
theorem C5_scores_witness :
    (2 ≤ ([w5a, w5b] : List EquityRow).length ∧
      (∀ r ∈ ([w5a, w5b] : List EquityRow), 0 < r.equity) ∧
      (∀ r ∈ ([w5a, w5b] : List EquityRow), 0 ≤ r.margin_used)) ∧
    ∃ (m : PerformanceMetrics) (p r : ℝ),
      calculate_performance 0 [w5a, w5b] "S" = some m ∧
      m.performance_score = PVal.val (roundTo 2 p) ∧
      m.risk_score = PVal.val (roundTo 2 r) ∧
      m.total_score = PVal.val (roundTo 2 ((p + r) / 2)) ∧
      0 ≤ p ∧ p ≤ 100 ∧ 0 ≤ r ∧ r ≤ 100 ∧
      0 ≤ roundTo 2 p ∧ roundTo 2 p ≤ 100 ∧
      0 ≤ roundTo 2 r ∧ roundTo 2 r ≤ 100 ∧
      0 ≤ roundTo 2 ((p + r) / 2) ∧ roundTo 2 ((p + r) / 2) ≤ 100 :=
  ⟨⟨by decide, by simp [w5a, w5b], by simp [w5a, w5b]⟩,
    C5_scores 0 [w5a, w5b] "S" (by decide) (by simp [w5a, w5b])
      (by simp [w5a, w5b])⟩
